import Mathlib

/-!
Verification of the structural parser of `legal2akn` (src/legal2akn/parser.py
and src/legal2akn/pdf_parser.py) against its natural-language specification.

Strings are shallowly embedded as `List Char`; the Python regular expressions
are embedded as hand-written deterministic matchers over character lists.
Each matcher's doc comment cites the regex it embeds and, where the regex
engine's backtracking is resolved by hand, records the argument that the
deterministic reading coincides with Python's leftmost / greedy semantics.
-/

namespace Legal2Akn

/-- Strings are modelled as lists of characters. -/
abbrev Str := List Char

/-- Conversion from Lean string literals. -/
def lit (s : String) : Str := s.data

/-- ASCII-lowercased code point, for `re.IGNORECASE` comparisons. -/
def lowerVal (c : Char) : Nat :=
  if 65 ≤ c.toNat ∧ c.toNat ≤ 90 then c.toNat + 32 else c.toNat

/-- Python `\s` on ASCII: space, tab, newline, carriage return, vertical tab, form feed. -/
def isSpaceChar (c : Char) : Bool :=
  c.toNat == 32 || c.toNat == 9 || c.toNat == 10 || c.toNat == 13 ||
    c.toNat == 11 || c.toNat == 12

/-- Python `\d` on ASCII. -/
def isDigitChar (c : Char) : Bool := 48 ≤ c.toNat && c.toNat ≤ 57

/-- ASCII lowercase letter, the class `[a-z]`. -/
def isLowerChar (c : Char) : Bool := 97 ≤ c.toNat && c.toNat ≤ 122

/-- ASCII uppercase letter, the class `[A-Z]`. -/
def isUpperChar (c : Char) : Bool := 65 ≤ c.toNat && c.toNat ≤ 90

/-- ASCII letter, the class `[A-Z]` under `re.IGNORECASE`. -/
def isAlphaChar (c : Char) : Bool := isUpperChar c || isLowerChar c

/-- Python `\w` on ASCII: letters, digits and underscore. -/
def isWordChar (c : Char) : Bool := isAlphaChar c || isDigitChar c || c == '_'

/-- The class `[IVXLCDM]` (case-sensitive). -/
def isRomanChar (c : Char) : Bool :=
  c == 'I' || c == 'V' || c == 'X' || c == 'L' || c == 'C' || c == 'D' || c == 'M'

/-- The class `[IVXLCDM]` under `re.IGNORECASE`. -/
def isRomanCI (c : Char) : Bool :=
  let v := lowerVal c
  v == 105 || v == 118 || v == 120 || v == 108 || v == 99 || v == 100 || v == 109

/-- Length of the leading run of characters satisfying `p`. -/
def runLen (p : Char → Bool) : Str → Nat
  | [] => 0
  | c :: r => if p c then runLen p r + 1 else 0

/-- Length of the run of characters satisfying `p` starting at offset `i`. -/
def runFrom (p : Char → Bool) (l : Str) (i : Nat) : Nat := runLen p (l.drop i)

/-- Whether the character at offset `i` exists and satisfies `p`. -/
def charIs (p : Char → Bool) (l : Str) (i : Nat) : Bool :=
  match l.get? i with
  | some c => p c
  | none => false

/-- The slice `l[a:b]` (as in Python, clamped). -/
def sliceL (l : Str) (a b : Nat) : Str := (l.drop a).take (b - a)

/-- Case-insensitive literal test: does `l` start with `pat` up to ASCII case? -/
def litCI : Str → Str → Bool
  | [], _ => true
  | _ :: _, [] => false
  | p :: ps, c :: cs => lowerVal p == lowerVal c && litCI ps cs

/-- Case-sensitive literal test: does `l` start with `pat`? -/
def litCS : Str → Str → Bool
  | [], _ => true
  | _ :: _, [] => false
  | p :: ps, c :: cs => p == c && litCS ps cs

/-- Case-insensitive literal test at offset `i`. -/
def litCIAt (pat : Str) (l : Str) (i : Nat) : Bool := litCI pat (l.drop i)

/-- Case-sensitive literal test at offset `i`. -/
def litCSAt (pat : Str) (l : Str) (i : Nat) : Bool := litCS pat (l.drop i)

/-- Python `str.strip()` restricted to ASCII whitespace. -/
def pstrip (l : Str) : Str :=
  (((l.dropWhile isSpaceChar).reverse).dropWhile isSpaceChar).reverse

/-- Python `str.strip(cs)` for an explicit character set. -/
def stripCharset (cs : Str) (l : Str) : Str :=
  let inSet := fun c => cs.contains c
  (((l.dropWhile inSet).reverse).dropWhile inSet).reverse

/-- Python `str.upper()` restricted to ASCII. -/
def upperStr (l : Str) : Str :=
  l.map fun c =>
    if 97 ≤ c.toNat ∧ c.toNat ≤ 122 then Char.ofNat (c.toNat - 32) else c

/-- Python `text.split('\n')`. -/
def splitNl : Str → List Str
  | [] => [[]]
  | c :: r =>
    match splitNl r with
    | h :: t => if c = '\n' then [] :: h :: t else (c :: h) :: t
    | [] => [[c]]

/-- Pair every list element with its index, starting at `n`. -/
def withIdx (n : Nat) : List α → List (Nat × α)
  | [] => []
  | a :: l => (n, a) :: withIdx (n + 1) l

/-- Insert an element at a position, clamping like Python `list.insert`. -/
def insertAt : Nat → α → List α → List α
  | 0, x, l => x :: l
  | _ + 1, x, [] => [x]
  | n + 1, x, a :: l => a :: insertAt n x l

/-! ## The match iterator

`re.finditer` over a multiline-anchored pattern: scan positions left to
right; a pattern beginning with `^` can only succeed at position 0 or right
after a newline; after a successful match the scan resumes at its end
(Python advances by one position on an empty match). -/

/-- Position `p` is a `re.MULTILINE` line start of `s`. -/
def anchoredAt (s : Str) (p : Nat) : Bool :=
  p == 0 ||
    match s.get? (p - 1) with
    | some c => c == '\n'
    | none => false

/-- One regex match: start position, length consumed, captured payload. -/
structure RMatch (α : Type) where
  start : Nat
  len : Nat
  val : α
  deriving Repr, DecidableEq

/-- End position of a match. -/
def RMatch.stop (m : RMatch α) : Nat := m.start + m.len

/-- Fuel-driven scan implementing `re.finditer` for a line-anchored matcher
`m` operating on the suffix at the current position. -/
def finditerAux (m : Str → Option (Nat × α)) (s : Str) : Nat → Nat → List (RMatch α)
  | 0, _ => []
  | fuel + 1, pos =>
    if s.length < pos then []
    else if anchoredAt s pos then
      match m (s.drop pos) with
      | some (len, a) =>
          ⟨pos, len, a⟩ :: finditerAux m s fuel (pos + (if len == 0 then 1 else len))
      | none => finditerAux m s fuel (pos + 1)
    else finditerAux m s fuel (pos + 1)

/-- All matches of the anchored matcher `m` in `s`, in document order. -/
def finditerL (m : Str → Option (Nat × α)) (s : Str) : List (RMatch α) :=
  finditerAux m s (s.length + 2) 0

/-! ## The patterns of `DocumentParser.__init__` (parser.py lines 11-17)

Each matcher takes the suffix of the text starting at a candidate match
position and returns `some (consumed, payload)` on success.  The common tail
`\.?\s*[-:]?\s*(.*)$` matches at every position (each piece is optional and
`(.*)$` stops at the next newline or the end), so every earlier greedy piece
simply takes its maximal run; the alternatives inside `(\d+|[IVXLCDM]+)`
start with disjoint character classes from `\s`, so `\s+` also takes its
maximal run with no backtracking. -/

/-- The tail `\.?\s*[-:]?\s*(.*)$` (with `withDot := true`) or
`\s*[-:]?\s*(.*)$` (with `withDot := false`) starting at offset `i`;
returns the end offset and the text captured by `(.*)`. -/
def restTail (l : Str) (i : Nat) (withDot : Bool) : Nat × Str :=
  let j0 := if withDot && charIs (· == '.') l i then i + 1 else i
  let j1 := j0 + runFrom isSpaceChar l j0
  let j2 := if charIs (fun c => c == '-' || c == ':') l j1 then j1 + 1 else j1
  let j3 := j2 + runFrom isSpaceChar l j2
  let j4 := j3 + runFrom (fun c => !(c == '\n')) l j3
  (j4, sliceL l j3 j4)

/-- The group `(\d+|[IVXLCDM]+)` under `re.IGNORECASE` at offset `i`:
a maximal digit run, or else a maximal Roman-letter run. -/
def numGroup (l : Str) (i : Nat) : Option (Nat × Str) :=
  if charIs isDigitChar l i then
    let d := runFrom isDigitChar l i
    some (i + d, sliceL l i (i + d))
  else if charIs isRomanCI l i then
    let d := runFrom isRomanCI l i
    some (i + d, sliceL l i (i + d))
  else none

/-- After a literal ending at offset `i`: `\s+(\d+|[IVXLCDM]+)\.?\s*[-:]?\s*(.*)$`. -/
def numberAndTail (l : Str) (i : Nat) : Option (Nat × (Str × Str)) :=
  let w := runFrom isSpaceChar l i
  if w == 0 then none
  else
    match numGroup l (i + w) with
    | none => none
    | some (j, num) =>
      let (e, h) := restTail l j true
      some (e, (num, h))

/-- `^CHAPTER\s+(\d+|[IVXLCDM]+)\.?\s*[-:]?\s*(.*)$` with
`re.IGNORECASE | re.MULTILINE` (parser.py line 14), applied at a line start. -/
def matchChapter (l : Str) : Option (Nat × (Str × Str)) :=
  if litCI (lit "chapter") l then numberAndTail l 7 else none

/-- `^(?:Article|Art\.?)\s+(\d+|[IVXLCDM]+)\.?\s*[-:]?\s*(.*)$` with
`re.IGNORECASE | re.MULTILINE` (parser.py line 15).  The alternation tries
`Article` first, then `Art` with the optional dot taken greedily. -/
def matchArticle (l : Str) : Option (Nat × (Str × Str)) :=
  Option.orElse (if litCI (lit "article") l then numberAndTail l 7 else none)
    fun _ =>
      if litCI (lit "art") l then
        if charIs (· == '.') l 3 then
          Option.orElse (numberAndTail l 4) fun _ => numberAndTail l 3
        else numberAndTail l 3
      else none

/-- The group `(\d+(?:\.\d+)*)` continued from offset `i` (the offset right
after the leading digit run): repeatedly consume `.` followed by a digit run. -/
def dottedExt (l : Str) : Nat → Nat → Nat
  | _, 0 => 0
  | i, fuel + 1 =>
    if charIs (· == '.') l i && charIs isDigitChar l (i + 1) then
      let d := runFrom isDigitChar l (i + 1)
      let k := 1 + d
      k + dottedExt l (i + k) fuel
    else 0

/-- After the section literal at offset `i`:
`\s+(\d+(?:\.\d+)*)\s*[-:]?\s*(.*)$`. -/
def sectionNumberAndTail (l : Str) (i : Nat) : Option (Nat × (Str × Str)) :=
  let w := runFrom isSpaceChar l i
  if w == 0 then none
  else
    let j := i + w
    if charIs isDigitChar l j then
      let d := runFrom isDigitChar l j
      let ext := dottedExt l (j + d) l.length
      let k := j + d + ext
      let num := sliceL l j k
      let (e, h) := restTail l k false
      some (e, (num, h))
    else none

/-- `^(?:Section|Sec\.?|§)\s+(\d+(?:\.\d+)*)\s*[-:]?\s*(.*)$` with
`re.IGNORECASE | re.MULTILINE` (parser.py line 16). -/
def matchSection (l : Str) : Option (Nat × (Str × Str)) :=
  Option.orElse (if litCI (lit "section") l then sectionNumberAndTail l 7 else none)
    fun _ =>
      Option.orElse
        (if litCI (lit "sec") l then
          if charIs (· == '.') l 3 then
            Option.orElse (sectionNumberAndTail l 4) fun _ => sectionNumberAndTail l 3
          else sectionNumberAndTail l 3
        else none)
        fun _ => if litCI (lit "§") l then sectionNumberAndTail l 1 else none

/-- `^\s*\(([a-z]|\d+)\)\s+(.*)$` with `re.MULTILINE` (parser.py line 17);
the payload is the group `([a-z]|\d+)`.  `\s` and `(` are disjoint, so `\s*`
takes its maximal run; a single lowercase letter must be followed by `)`,
else a maximal digit run followed by `)`. -/
def matchSubsection (l : Str) : Option (Nat × Str) :=
  let w := runLen isSpaceChar l
  if charIs (· == '(') l w then
    let i := w + 1
    let body : Option (Nat × Str) :=
      match l.get? i with
      | none => none
      | some c =>
        if isLowerChar c && charIs (· == ')') l (i + 1) then some (i + 2, [c])
        else if isDigitChar c then
          let d := runFrom isDigitChar l i
          if charIs (· == ')') l (i + d) then some (i + d + 1, sliceL l i (i + d))
          else none
        else none
    match body with
    | none => none
    | some (j, num) =>
      let sp := runFrom isSpaceChar l j
      if sp == 0 then none
      else
        let k := j + sp
        let e := k + runFrom (fun c => !(c == '\n')) l k
        some (e, num)
  else none

/-- All chapter-pattern matches of `text`, in document order. -/
def chapterMatches (s : Str) : List (RMatch (Str × Str)) := finditerL matchChapter s

/-- All article-pattern matches of `text`, in document order. -/
def articleMatches (s : Str) : List (RMatch (Str × Str)) := finditerL matchArticle s

/-- All section-pattern matches of `text`, in document order. -/
def sectionMatches (s : Str) : List (RMatch (Str × Str)) := finditerL matchSection s

/-- All subsection-pattern matches of `text`, in document order. -/
def subsectionMatches (s : Str) : List (RMatch Str) := finditerL matchSubsection s

/-! ## The cleanup substitution of `_extract_subsections` (parser.py line 169)

`re.sub(r'^\s*\([a-z]|\d+\)\s*', '', content)`: the alternation groups as
`(^\s*\([a-z]) | (\d+\)\s*)`; without `re.MULTILINE` the `^` only matches at
position 0.  `re.sub` removes every non-overlapping leftmost match, scanning
left to right. -/

/-- One step of the substitution scan; `atStart` records whether the current
position is position 0 of the original string. -/
def cleanSubAux : Str → Bool → Nat → Str
  | l, _, 0 => l
  | l, atStart, fuel + 1 =>
    let alt1 : Option Nat :=
      if atStart then
        let w := runLen isSpaceChar l
        if charIs (· == '(') l w && charIs isLowerChar l (w + 1) then some (w + 2)
        else none
      else none
    match alt1 with
    | some k => cleanSubAux (l.drop k) false fuel
    | none =>
      let d := runLen isDigitChar l
      if 0 < d && charIs (· == ')') l d then
        let sp := runFrom isSpaceChar l (d + 1)
        cleanSubAux (l.drop (d + 1 + sp)) false fuel
      else
        match l with
        | [] => []
        | c :: r => c :: cleanSubAux r false fuel

/-- `re.sub(r'^\s*\([a-z]|\d+\)\s*', '', content)`. -/
def cleanSub (l : Str) : Str := cleanSubAux l true (l.length + 1)

/-! ## The document model (models.py) -/

/-- models.py `Section`; subsections nest recursively. -/
inductive PSection : Type where
  | mk (id number : Str) (heading : Option Str) (content : Str)
      (subsections : List PSection)

/-- Identifier of a section. -/
def PSection.id : PSection → Str
  | .mk i _ _ _ _ => i

/-- Number of a section. -/
def PSection.number : PSection → Str
  | .mk _ n _ _ _ => n

/-- Heading of a section. -/
def PSection.heading : PSection → Option Str
  | .mk _ _ h _ _ => h

/-- Content of a section. -/
def PSection.content : PSection → Str
  | .mk _ _ _ c _ => c

/-- Subsections of a section. -/
def PSection.subsections : PSection → List PSection
  | .mk _ _ _ _ s => s

/-- models.py `Article`. -/
structure PArticle where
  id : Str
  number : Str
  heading : Option Str
  sections : List PSection

/-- models.py `Chapter`. -/
structure PChapter where
  id : Str
  number : Str
  heading : Option Str
  articles : List PArticle

/-- models.py `DocumentMetadata` (date and publication fields kept abstract
as optional strings; they play no structural role). -/
structure DocMetadata where
  title : Str
  document_type : Str := lit "act"
  country : Str := lit "US"
  language : Str := lit "eng"
  date_enacted : Option Str := none
  date_effective : Option Str := none
  publisher : Option Str := none
  uri : Option Str := none

/-- models.py `Part`. -/
structure PPart where
  id : Str
  number : Str
  heading : Option Str := none
  articles : List PArticle := []
  chapters : List PChapter := []

/-- models.py `LegalDocument`. -/
structure PLegalDocument where
  metadata : DocMetadata
  preamble : Option Str := none
  parts : List PPart := []
  chapters : List PChapter := []
  articles : List PArticle := []
  sections : List PSection := []
  conclusions : Option Str := none

/-! ## The hierarchical extractor (parser.py lines 19-179) -/

/-- Pair each match with the start of the next match, or with `total` for the
last one: the loop `end = matches[i+1].start() if i+1 < len(matches) else
len(text)` of every `_extract_*` method. -/
def withNext (total : Nat) : List (RMatch α) → List (RMatch α × Nat)
  | [] => []
  | [m] => [(m, total)]
  | m :: m' :: rest => (m, m'.start) :: withNext total (m' :: rest)

/-- `heading if heading else None` after `.strip()`. -/
def optHeading (h : Str) : Option Str :=
  let t := pstrip h
  if t = [] then none else some t

/-- The loop body of `_extract_subsections` (parser.py lines 160-177) for one
match paired with the next start.  Note the span starts at `match.start()`,
not `match.end()`, and the marker is then partially removed by the cleanup
substitution. -/
def mkSubsection (text : Str) (p : RMatch Str × Nat) : PSection :=
  let content := pstrip (cleanSub (sliceL text p.1.start p.2))
  PSection.mk (lit "subsec_" ++ p.1.val) p.1.val none content []

/-- `DocumentParser._extract_subsections` (parser.py lines 155-179). -/
def extract_subsections (text : Str) : List PSection :=
  (withNext text.length (subsectionMatches text)).map (mkSubsection text)

/-- The loop body of `_extract_sections` (parser.py lines 126-151): content
is the stripped span `[match end, next start)`, truncated before the first
subsection marker when subsections are found. -/
def mkSection (text : Str) (p : RMatch (Str × Str) × Nat) : PSection :=
  let content0 := pstrip (sliceL text p.1.stop p.2)
  let subsections := extract_subsections content0
  let content :=
    match subsections with
    | [] => content0
    | _ =>
      match (subsectionMatches content0).head? with
      | some m0 => pstrip (content0.take m0.start)
      | none => content0
  PSection.mk (lit "sec_" ++ (p.1.val.1.map fun c => if c = '.' then '_' else c))
    p.1.val.1 (optHeading p.1.val.2) content subsections

/-- `DocumentParser._extract_sections` (parser.py lines 121-153). -/
def extract_sections (text : Str) : List PSection :=
  (withNext text.length (sectionMatches text)).map (mkSection text)

/-- The loop body of `_extract_articles` (parser.py lines 99-117): sections
are extracted from the span `[match end, next start)`. -/
def mkArticle (text : Str) (p : RMatch (Str × Str) × Nat) : PArticle :=
  PArticle.mk (lit "art_" ++ p.1.val.1) p.1.val.1 (optHeading p.1.val.2)
    (extract_sections (sliceL text p.1.stop p.2))

/-- `DocumentParser._extract_articles` (parser.py lines 94-119). -/
def extract_articles (text : Str) : List PArticle :=
  (withNext text.length (articleMatches text)).map (mkArticle text)

/-- The loop body of `_extract_chapters` (parser.py lines 72-90): articles
are extracted from the span `[match end, next start)`. -/
def mkChapter (text : Str) (p : RMatch (Str × Str) × Nat) : PChapter :=
  PChapter.mk (lit "chp_" ++ p.1.val.1) p.1.val.1 (optHeading p.1.val.2)
    (extract_articles (sliceL text p.1.stop p.2))

/-- `DocumentParser._extract_chapters` (parser.py lines 67-92). -/
def extract_chapters (text : Str) : List PChapter :=
  (withNext text.length (chapterMatches text)).map (mkChapter text)

/-- Minimum of a list of naturals, `min(positions)` with `None` for `[]`. -/
def minList : List Nat → Option Nat
  | [] => none
  | a :: l =>
    match minList l with
    | none => some a
    | some b => some (min a b)

/-- `DocumentParser._find_first_structure` (parser.py lines 56-65): the least
start position among the first chapter, article and section matches, or
`none` (Python's `-1`) when no pattern matches. -/
def find_first_structure (text : Str) : Option Nat :=
  minList ([chapterMatches text, articleMatches text, sectionMatches text].filterMap
    fun ms => ms.head?.map RMatch.start)

/-- `DocumentParser.parse` (parser.py lines 19-54). -/
def parse (text : Str) (metadata : Option DocMetadata) : PLegalDocument :=
  let md := metadata.getD { title := lit "Untitled Document" }
  let (preamble, body) :=
    match find_first_structure text with
    | some k =>
      if 0 < k then (some (pstrip (text.take k)), text.drop k) else (none, text)
    | none => (none, text)
  let chapters := extract_chapters body
  match chapters with
  | _ :: _ => { metadata := md, preamble := preamble, chapters := chapters }
  | [] =>
    let articles := extract_articles body
    match articles with
    | _ :: _ => { metadata := md, preamble := preamble, articles := articles }
    | [] =>
      { metadata := md, preamble := preamble, sections := extract_sections body }

/-! ## PDF structure extraction (pdf_parser.py)

`extract_constitution_structure` works line by line on the markdown text;
each line is stripped first, so the per-line matchers below never see a
newline and implement `pattern.match(line)` (anchored at the line start). -/

/-- A `structure['parts']` entry: number, title, position, line. -/
structure PartEntry where
  number : Str
  title : Str
  position : Int
  line : Str
  deriving Repr, DecidableEq

/-- A `structure['articles']` entry. -/
structure ArticleEntry where
  number : Str
  title : Str
  position : Int
  line : Str
  deriving Repr, DecidableEq

/-- A `structure['schedules']` entry. -/
structure SchedEntry where
  name : Str
  position : Int
  deriving Repr, DecidableEq

/-- The dictionary returned by `extract_constitution_structure`. -/
structure ConstStructure where
  parts : List PartEntry
  articles : List ArticleEntry
  schedules : List SchedEntry

/-- The separator class `[–—\-\.]` (also `[.–—\-]`). -/
def isSepChar (c : Char) : Bool :=
  c == '–' || c == '—' || c == '-' || c == '.'

/-- The tail `\s*[–—\-\.]?\s*(.*)$` at offset `i`, returning the `(.*)` group. -/
def sepRestTail (l : Str) (i : Nat) : Str :=
  let j1 := i + runFrom isSpaceChar l i
  let j2 := if charIs isSepChar l j1 then j1 + 1 else j1
  let j3 := j2 + runFrom isSpaceChar l j2
  sliceL l j3 (j3 + runFrom (fun c => !(c == '\n')) l j3)

/-- `^#{1,2}\s*PART\s+([IVXLCDM]+)\s*[–—\-\.]?\s*(.*)$` with `re.IGNORECASE`
(pdf_parser.py line 47), on a single line.  With three or more leading
hashes every choice of `#{1,2}` leaves a `#` where `\s*PART` must begin, so
the pattern requires exactly one or two leading hashes. -/
def matchPartMdLine (l : Str) : Option (Str × Str) :=
  let k := runLen (· == '#') l
  if k == 0 || 2 < k then none
  else
    let i0 := k + runFrom isSpaceChar l k
    if litCIAt (lit "part") l i0 then
      let w := runFrom isSpaceChar l (i0 + 4)
      if w == 0 then none
      else
        let j := i0 + 4 + w
        if charIs isRomanCI l j then
          let d := runFrom isRomanCI l j
          some (sliceL l j (j + d), sepRestTail l (j + d))
        else none
    else none

/-- `^\s*PART\s+([IVXLCDM]+)\s*[–—\-\.]?\s*(.*)$`, case-sensitive
(pdf_parser.py line 53), on a single line. -/
def matchPartTextLine (l : Str) : Option (Str × Str) :=
  let w0 := runLen isSpaceChar l
  if litCSAt (lit "PART") l w0 then
    let w := runFrom isSpaceChar l (w0 + 4)
    if w == 0 then none
    else
      let j := w0 + 4 + w
      if charIs isRomanChar l j then
        let d := runFrom isRomanChar l j
        some (sliceL l j (j + d), sepRestTail l (j + d))
      else none
  else none

/-- `^#{2,4}\s*Article\s+(\d+[A-Z]?)\s*[.–—\-]?\s*(.*)$` with `re.IGNORECASE`
(pdf_parser.py line 50), on a single line.  As for the part pattern, five or
more leading hashes make every choice of `#{2,4}` fail. -/
def matchArticleMdLine (l : Str) : Option (Str × Str) :=
  let k := runLen (· == '#') l
  if k < 2 || 4 < k then none
  else
    let i0 := k + runFrom isSpaceChar l k
    if litCIAt (lit "article") l i0 then
      let w := runFrom isSpaceChar l (i0 + 7)
      if w == 0 then none
      else
        let j := i0 + 7 + w
        if charIs isDigitChar l j then
          let d := runFrom isDigitChar l j
          let e := if charIs isAlphaChar l (j + d) then j + d + 1 else j + d
          some (sliceL l j e, sepRestTail l e)
        else none
    else none

/-- `^\s*Article\s+(\d+[A-Z]?)\s*[.–—\-]?\s*(.*)$`, case-sensitive
(pdf_parser.py line 54), on a single line. -/
def matchArticleTextLine (l : Str) : Option (Str × Str) :=
  let w0 := runLen isSpaceChar l
  if litCSAt (lit "Article") l w0 then
    let w := runFrom isSpaceChar l (w0 + 7)
    if w == 0 then none
    else
      let j := w0 + 7 + w
      if charIs isDigitChar l j then
        let d := runFrom isDigitChar l j
        let e := if charIs isUpperChar l (j + d) then j + d + 1 else j + d
        some (sliceL l j e, sepRestTail l e)
      else none
  else none

/-- The twelve ordinals of the schedule pattern (pdf_parser.py lines 57-60). -/
def ordinalWords : List Str :=
  [lit "FIRST", lit "SECOND", lit "THIRD", lit "FOURTH", lit "FIFTH",
   lit "SIXTH", lit "SEVENTH", lit "EIGHTH", lit "NINTH", lit "TENTH",
   lit "ELEVENTH", lit "TWELFTH"]

/-- One of the ordinals, then `\s+SCHEDULE`, case-insensitively, at offset `i`. -/
def scheduleAt (l : Str) (i : Nat) : Bool :=
  ordinalWords.any fun o =>
    litCIAt o l i &&
      (let j := i + o.length
       let w := runFrom isSpaceChar l j
       0 < w && litCIAt (lit "schedule") l (j + w))

/-- `schedule_pattern.search(line)` succeeds somewhere in the line. -/
def lineHasSchedule (l : Str) : Bool :=
  (List.range (l.length + 1)).any (scheduleAt l)

/-- `re.sub(r'[#*_]', '', title).strip()` applied to the already stripped
group, as in pdf_parser.py lines 76-79 and 98-101. -/
def cleanTitle (g : Str) : Str :=
  pstrip ((pstrip g).filter fun c => !(c == '#' || c == '*' || c == '_'))

/-- The line loop of `extract_constitution_structure` (pdf_parser.py lines
62-115), threading the `seen_parts` set. -/
def mainScan : List (Nat × Str) → List Str → List PartEntry × List ArticleEntry × List SchedEntry
  | [], _ => ([], [], [])
  | (i, raw) :: rest, seen =>
    let line := pstrip raw
    if line = [] then mainScan rest seen
    else
      let pm := Option.orElse (matchPartMdLine line) fun _ => matchPartTextLine line
      let newPart : Option PartEntry :=
        match pm with
        | some (n, t) =>
          if seen.contains (upperStr n) then none
          else some ⟨upperStr n, cleanTitle t, Int.ofNat i, line⟩
        | none => none
      let seenNext : List Str :=
        match pm with
        | some (n, _) => if seen.contains (upperStr n) then seen else upperStr n :: seen
        | none => seen
      let am := Option.orElse (matchArticleMdLine line) fun _ => matchArticleTextLine line
      let newArts : List ArticleEntry :=
        match am with
        | some (n, t) => [⟨n, cleanTitle t, Int.ofNat i, line⟩]
        | none => []
      let newScheds : List SchedEntry :=
        if lineHasSchedule line then [⟨line, Int.ofNat i⟩] else []
      let r := mainScan rest seenNext
      (newPart.toList ++ r.1, newArts ++ r.2.1, newScheds ++ r.2.2)

/-- The canonical sequence `expected_parts` of the 1950 Constitution
(pdf_parser.py lines 140-142 and 278-280). -/
def expectedParts : List Str :=
  [lit "I", lit "II", lit "III", lit "IV", lit "V", lit "VI", lit "VII",
   lit "VIII", lit "IX", lit "X", lit "XI", lit "XII", lit "XIII", lit "XIV",
   lit "XV", lit "XVI", lit "XVII", lit "XVIII", lit "XIX", lit "XX",
   lit "XXI", lit "XXII"]

/-- Index in a list of numbers, `expected_parts.index` with `None` for absence. -/
def idxOfNum : List Str → Str → Option Nat
  | [], _ => none
  | e :: r, n => if e = n then some 0 else (idxOfNum r n).map (· + 1)

/-- Canonical index of a part number. -/
def canonIdx (n : Str) : Option Nat := idxOfNum expectedParts n

/-- The sort key `expected_parts.index(x['number']) if ... else 999`
(pdf_parser.py lines 188 and 282). -/
def pkey (p : PartEntry) : Nat := (canonIdx p.number).getD 999

/-- Stable insertion into a list sorted by `pkey` (placed after equals). -/
def sinsertPart (a : PartEntry) : List PartEntry → List PartEntry
  | [] => [a]
  | b :: bs => if pkey b ≤ pkey a then b :: sinsertPart a bs else a :: b :: bs

/-- Python's stable `sorted(found_parts, key=...)` by `pkey`. -/
def ssortParts : List PartEntry → List PartEntry
  | [] => []
  | a :: l => sinsertPart a (ssortParts l)

/-- Scan positions `i, i+1, ...` until `f` produces a value. -/
def scanFrom (f : Nat → Option β) : Nat → Nat → Option β
  | _, 0 => none
  | i, fuel + 1 =>
    match f i with
    | some b => some b
    | none => scanFrom f (i + 1) fuel

/-- Leftmost position (with payload) at which `f` succeeds in a text of
length `n`. -/
def searchIn (f : Nat → Option β) (n : Nat) : Option β := scanFrom f 0 (n + 1)

/-- First position `r ≥ i` where the literal `pat` occurs case-insensitively. -/
def findLitCIFrom (pat : Str) (text : Str) (i : Nat) : Option Nat :=
  searchIn (fun k =>
      if i ≤ k && litCIAt pat text k then some k else none)
    text.length

/-! ### `_fix_missing_parts` (pdf_parser.py lines 128-188) -/

/-- `\bPART\s+<part>\b` with `re.MULTILINE | re.IGNORECASE` at position `q`;
returns the match end.  `\s+` and the Roman literal begin with disjoint
characters, so `\s+` takes its maximal run. -/
def fixPat1At (r : Str) (text : Str) (q : Nat) : Option Nat :=
  let boundary := q == 0 || !(charIs isWordChar text (q - 1))
  if boundary && litCIAt (lit "part") text q then
    let w := runFrom isSpaceChar text (q + 4)
    if w == 0 then none
    else
      let j := q + 4 + w
      if litCIAt r text j && !(charIs isWordChar text (j + r.length)) then
        some (j + r.length)
      else none
  else none

/-- `^\s*PART\s+<part>\s` with `re.MULTILINE | re.IGNORECASE` at position `q`. -/
def fixPat2At (r : Str) (text : Str) (q : Nat) : Option Nat :=
  if anchoredAt text q then
    let w0 := runFrom isSpaceChar text q
    if litCIAt (lit "part") text (q + w0) then
      let i := q + w0 + 4
      let w := runFrom isSpaceChar text i
      if w == 0 then none
      else
        let j := i + w
        if litCIAt r text j && charIs isSpaceChar text (j + r.length) then
          some (j + r.length + 1)
        else none
    else none
  else none

/-- `#{1,4}\s*PART\s+<part>\b` with `re.MULTILINE | re.IGNORECASE` at
position `q`.  Five or more hashes at `q` leave a `#` after every choice of
`#{1,4}`, so the hash run at `q` must have length between one and four. -/
def fixPat3At (r : Str) (text : Str) (q : Nat) : Option Nat :=
  let k := runFrom (· == '#') text q
  if k == 0 || 4 < k then none
  else
    let i0 := q + k + runFrom isSpaceChar text (q + k)
    if litCIAt (lit "part") text i0 then
      let w := runFrom isSpaceChar text (i0 + 4)
      if w == 0 then none
      else
        let j := i0 + 4 + w
        if litCIAt r text j && !(charIs isWordChar text (j + r.length)) then
          some (j + r.length)
        else none
    else none

/-- `\*\*PART\s+<part>\*\*` with `re.MULTILINE | re.IGNORECASE` at position `q`. -/
def fixPat4At (r : Str) (text : Str) (q : Nat) : Option Nat :=
  if litCSAt (lit "**") text q && litCIAt (lit "part") text (q + 2) then
    let w := runFrom isSpaceChar text (q + 6)
    if w == 0 then none
    else
      let j := q + 6 + w
      if litCIAt r text j && litCSAt (lit "**") text (j + r.length) then
        some (j + r.length + 2)
      else none
  else none

/-- `pattern.search(text)` for the `k`-th fallback pattern of
`_fix_missing_parts` (pdf_parser.py lines 147-152): the leftmost match,
returned as (start, end). -/
def fixPatSearch (k : Nat) (r : Str) (text : Str) : Option (Nat × Nat) :=
  let atPos : (Nat → Option Nat) → Option (Nat × Nat) := fun f =>
    searchIn (fun q => (f q).map fun e => (q, e)) text.length
  match k with
  | 0 => atPos (fixPat1At r text)
  | 1 => atPos (fixPat2At r text)
  | 2 => atPos (fixPat3At r text)
  | 3 => atPos (fixPat4At r text)
  | _ => none

/-- First index at or after `i` holding a newline. -/
def findNlFrom (text : Str) (i : Nat) : Option Nat :=
  searchIn (fun k =>
      if i ≤ k && charIs (· == '\n') text k then some k else none)
    text.length

/-- The title derivation of `_fix_missing_parts` (pdf_parser.py lines
160-165): text from the match end to the next newline (or 100 characters),
stripped of `' -–—.*#\n'`. -/
def fixTitleAt (text : Str) (b : Nat) : Str :=
  let e := match findNlFrom text b with
    | some x => x
    | none => b + 100
  stripCharset (lit " -–—.*#\n") (sliceL text b e)

/-- The entry built from a fallback-pattern hit (pdf_parser.py lines 179-184). -/
def recoverEntry (text : Str) (r : Str) (hit : Nat × Nat) : PartEntry :=
  let t := fixTitleAt text hit.2
  ⟨r, if t = [] then lit "Part " ++ r else t, Int.ofNat hit.1, sliceL text hit.1 hit.2⟩

/-- The inner pattern loop of `_fix_missing_parts`: try the four fallback
patterns in order and accept the first that matches. -/
def recover_part (text : Str) (r : Str) : Option PartEntry :=
  match fixPatSearch 0 r text with
  | some h => some (recoverEntry text r h)
  | none =>
    match fixPatSearch 1 r text with
    | some h => some (recoverEntry text r h)
    | none =>
      match fixPatSearch 2 r text with
      | some h => some (recoverEntry text r h)
      | none =>
        match fixPatSearch 3 r text with
        | some h => some (recoverEntry text r h)
        | none => none

/-- The insertion-position loop of `_fix_missing_parts` (pdf_parser.py lines
167-177): the first index whose entry has a canonical number greater than
`r`'s, skipping non-canonical numbers, else the length. -/
def insertPosFix : List PartEntry → Str → Nat
  | [], _ => 0
  | p :: ps, r =>
    match canonIdx r, canonIdx p.number with
    | some k, some j => if k < j then 0 else 1 + insertPosFix ps r
    | _, _ => 1 + insertPosFix ps r

/-- The outer loop of `_fix_missing_parts` over `expected_parts`, threading
the `found_numbers` set and the mutated list. -/
def fixGo (text : Str) : List Str → List Str → List PartEntry → List PartEntry
  | [], _, parts => parts
  | r :: rest, nums, parts =>
    if nums.contains r then fixGo text rest nums parts
    else
      match recover_part text r with
      | none => fixGo text rest nums parts
      | some e => fixGo text rest (r :: nums) (insertAt (insertPosFix parts r) e parts)

/-- `PDFParser._fix_missing_parts` (pdf_parser.py lines 128-188). -/
def fix_missing_parts (text : Str) (found : List PartEntry) : List PartEntry :=
  ssortParts (fixGo text expectedParts (found.map PartEntry.number) found)

/-! ### `_find_part_vii_specifically` (pdf_parser.py lines 190-282)

The nine recovery patterns are compiled with
`re.MULTILINE | re.IGNORECASE | re.DOTALL`, so `.` also matches newlines and
a lazy `.*?` before a literal alternative resolves to the first following
occurrence of that literal. -/

/-- `PART\s+VII\b` at position `q`, returning the end. -/
def viiHeadAt (text : Str) (q : Nat) : Option Nat :=
  if litCIAt (lit "part") text q then
    let w := runFrom isSpaceChar text (q + 4)
    if w == 0 then none
    else
      let j := q + 4 + w
      if litCIAt (lit "vii") text j && !(charIs isWordChar text (j + 3)) then
        some (j + 3)
      else none
  else none

/-- First `r ≥ i` starting `STATES` or `STATE` case-insensitively, with the
end of the alternation (`STATES` preferred at each position). -/
def findStateFrom (text : Str) (i : Nat) : Option Nat :=
  (findLitCIFrom (lit "state") text i).map fun r =>
    if charIs (fun c => lowerVal c == 115) text (r + 5) then r + 6 else r + 5

/-- Pattern 1, `PART\s+VII\b.*?(?:STATES|STATE)`, at position `q`.  Under
`re.IGNORECASE` pattern 2, `Part\s+VII\b.*?(?:STATES|STATE)`, is the same. -/
def vii1At (text : Str) (q : Nat) : Option Nat :=
  (viiHeadAt text q).bind fun e => findStateFrom text e

/-- Pattern 3, `PART\s*[-–—\.]*\s*VII\b.*?(?:STATES|STATE)`, at position `q`;
the three runs have pairwise disjoint character classes, so each is maximal. -/
def vii3At (text : Str) (q : Nat) : Option Nat :=
  if litCIAt (lit "part") text q then
    let a := runFrom isSpaceChar text (q + 4)
    let b := runFrom isSepChar text (q + 4 + a)
    let c := runFrom isSpaceChar text (q + 4 + a + b)
    let j := q + 4 + a + b + c
    if litCIAt (lit "vii") text j && !(charIs isWordChar text (j + 3)) then
      findStateFrom text (j + 3)
    else none
  else none

/-- `PART\s+B` (case-insensitive) at position `q`, returning the end. -/
def partBAt (text : Str) (q : Nat) : Option Nat :=
  if litCIAt (lit "part") text q then
    let w := runFrom isSpaceChar text (q + 4)
    if w == 0 then none
    else
      let j := q + 4 + w
      if charIs (fun c => lowerVal c == 98) text j then some (j + 1) else none
  else none

/-- First `u ≥ i` where `PART\s+B` matches, with its end. -/
def findPartBFrom (text : Str) (i : Nat) : Option Nat :=
  searchIn (fun u =>
      if i ≤ u then (partBAt text u) else none)
    text.length

/-- Pattern 6, `VII\b.*?STATES.*?PART\s+B`, at position `q` (no boundary
before `VII`). -/
def vii6At (text : Str) (q : Nat) : Option Nat :=
  if litCIAt (lit "vii") text q && !(charIs isWordChar text (q + 3)) then
    (findLitCIFrom (lit "states") text (q + 3)).bind fun r =>
      findPartBFrom text (r + 6)
  else none

/-- Pattern 7, `Part\s+B.*?STATES.*?VII`, at position `q` (case-insensitive,
no boundary after the final `VII`). -/
def vii7At (text : Str) (q : Nat) : Option Nat :=
  (partBAt text q).bind fun e =>
    (findLitCIFrom (lit "states") text e).bind fun r =>
      (findLitCIFrom (lit "vii") text (r + 6)).map (· + 3)

/-- Pattern 8, `(?:PART\s+B|Part\s+B).*?VII|VII.*?(?:PART\s+B|Part\s+B)`, at
position `q`: the first top-level alternative is preferred. -/
def vii8At (text : Str) (q : Nat) : Option Nat :=
  Option.orElse
    ((partBAt text q).bind fun e => (findLitCIFrom (lit "vii") text e).map (· + 3))
    fun _ =>
      if litCIAt (lit "vii") text q then findPartBFrom text (q + 3) else none

/-- The class `[.\s\-–—]` of pattern 9. -/
def isDotSpaceSep (c : Char) : Bool :=
  c == '.' || isSpaceChar c || c == '-' || c == '–' || c == '—'

/-- `First\s+Schedule` (case-insensitive) at position `r`, with its end. -/
def firstSchedAt (text : Str) (r : Nat) : Option Nat :=
  if litCIAt (lit "first") text r then
    let w := runFrom isSpaceChar text (r + 5)
    if 0 < w && litCIAt (lit "schedule") text (r + 5 + w) then
      some (r + 5 + w + 8)
    else none
  else none

/-- The terminator `(?:STATES|First\s+Schedule)` of pattern 9 at `r`. -/
def statesOrSchedAt (text : Str) (r : Nat) : Option Nat :=
  if litCIAt (lit "states") text r then some (r + 6) else firstSchedAt text r

/-- Pattern 9, `(?:^|\n)\s*VII[.\s\-–—]+.*?(?:STATES|First\s+Schedule)`, at
position `q`.  The `^` alternative is zero-width at a line start; the `\n`
alternative consumes a newline.  The targets begin with letters outside the
class `[.\s\-–—]`, so that run is maximal and the lazy `.*?` resolves to the
first following terminator. -/
def vii9At (text : Str) (q : Nat) : Option Nat :=
  let body : Nat → Option Nat := fun i =>
    let w := runFrom isSpaceChar text i
    if litCIAt (lit "vii") text (i + w) then
      let j := i + w + 3
      let d := runFrom isDotSpaceSep text j
      if d == 0 then none
      else
        searchIn (fun r =>
            if j + d ≤ r then statesOrSchedAt text r else none)
          text.length
    else none
  Option.orElse (if anchoredAt text q then body q else none)
    fun _ => if charIs (· == '\n') text q then body (q + 1) else none

/-- `pattern.search(text)` for the `k`-th Part VII pattern (pdf_parser.py
lines 202-221), as (start, end). -/
def viiPatSearch (k : Nat) (text : Str) : Option (Nat × Nat) :=
  let atPos : (Nat → Option Nat) → Option (Nat × Nat) := fun f =>
    searchIn (fun q => (f q).map fun e => (q, e)) text.length
  match k with
  | 0 => atPos (vii1At text)
  | 1 => atPos (vii1At text)
  | 2 => atPos (vii3At text)
  | 3 => atPos (fixPat3At (lit "VII") text)
  | 4 => atPos (fixPat4At (lit "VII") text)
  | 5 => atPos (vii6At text)
  | 6 => atPos (vii7At text)
  | 7 => atPos (vii8At text)
  | 8 => atPos (vii9At text)
  | _ => none

/-- The pattern loop of `_find_part_vii_specifically`: the first of the nine
patterns with a match anywhere in the text. -/
def viiSearch (text : Str) : Option (Nat × Nat) :=
  match viiPatSearch 0 text with
  | some h => some h
  | none => match viiPatSearch 1 text with
    | some h => some h
    | none => match viiPatSearch 2 text with
      | some h => some h
      | none => match viiPatSearch 3 text with
        | some h => some h
        | none => match viiPatSearch 4 text with
          | some h => some h
          | none => match viiPatSearch 5 text with
            | some h => some h
            | none => match viiPatSearch 6 text with
              | some h => some h
              | none => match viiPatSearch 7 text with
                | some h => some h
                | none => viiPatSearch 8 text

/-- `PART\s+VIII` (case-insensitive) at position `t`. -/
def partViiiAt (text : Str) (t : Nat) : Bool :=
  litCIAt (lit "part") text t &&
    (let w := runFrom isSpaceChar text (t + 4)
     0 < w && litCIAt (lit "viii") text (t + 4 + w))

/-- Counting down from `n` to `0`, the greedy backtracking order. -/
def descRange (n : Nat) : List Nat := (List.range (n + 1)).reverse

/-- First value of `f` over a list of candidates. -/
def firstSomeL (f : α → Option β) : List α → Option β
  | [] => none
  | a :: l =>
    match f a with
    | some b => some b
    | none => firstSomeL f l

/-- The context pattern
`PART\s+VII\s*[–—\-\.]*\s*(.{0,100}?)(?:\n|PART\s+VIII)` with
`re.IGNORECASE | re.DOTALL` (pdf_parser.py lines 232-235) at position `q`:
the three greedy runs backtrack outermost-last (each inner run re-maximised),
the bounded lazy group grows from zero, and the terminator prefers `\n`;
returns the group. -/
def viiContextAt (text : Str) (q : Nat) : Option Str :=
  if litCIAt (lit "part") text q then
    let w := runFrom isSpaceChar text (q + 4)
    if w == 0 then none
    else
      let j := q + 4 + w
      if litCIAt (lit "vii") text j then
        let p0 := j + 3
        firstSomeL (fun a =>
            let pb := p0 + a
            firstSomeL (fun b =>
                let pc := pb + b
                firstSomeL (fun c =>
                    let pd := pc + c
                    firstSomeL (fun n =>
                        if pd + n ≤ text.length &&
                            (charIs (· == '\n') text (pd + n) ||
                              partViiiAt text (pd + n)) then
                          some (sliceL text pd (pd + n))
                        else none)
                      (List.range 101))
                  (descRange (runFrom isSpaceChar text pc)))
              (descRange (runFrom isSepChar text pb)))
          (descRange (runFrom isSpaceChar text p0))
      else none
  else none

/-- `vii_context_pattern.search(text)`: group 1 of the leftmost match. -/
def viiContextSearch (text : Str) : Option Str :=
  searchIn (viiContextAt text) text.length

/-- The characters removed from the extracted title, `[#*_\[\](){}]`
(pdf_parser.py line 240). -/
def isCtxJunk (c : Char) : Bool :=
  c == '#' || c == '*' || c == '_' || c == '[' || c == ']' ||
    c == '(' || c == ')' || c == Char.ofNat 123 || c == Char.ofNat 125

mutual

/-- `re.sub(r'\s+', ' ', s)`: emit one space per whitespace run. -/
def collapseWs : Str → Str
  | [] => []
  | c :: r => if isSpaceChar c then ' ' :: collapseAfterWs r else c :: collapseWs r

/-- Skip the rest of a whitespace run. -/
def collapseAfterWs : Str → Str
  | [] => []
  | c :: r => if isSpaceChar c then collapseAfterWs r else c :: collapseWs r

end

/-- The fixed default heading of Part VII (pdf_parser.py lines 229 and 272). -/
def defaultViiTitle : Str := lit "THE STATES IN PART B OF THE FIRST SCHEDULE"

/-- The title of a recovered Part VII (pdf_parser.py lines 228-243): the
default unless the context pattern yields a cleaned title of plausible
length. -/
def viiTitle (text : Str) : Str :=
  match viiContextSearch text with
  | none => defaultViiTitle
  | some g =>
    let cleaned := pstrip (collapseWs (g.filter fun c => !(isCtxJunk c)))
    if 5 < cleaned.length ∧ cleaned.length < 100 then cleaned else defaultViiTitle

/-- The insertion position for Part VII (pdf_parser.py lines 245-250 and
264-268): the first index with number VIII, IX or X, else the length. -/
def viiInsertPos : List PartEntry → Nat
  | [] => 0
  | p :: ps =>
    if p.number = lit "VIII" ∨ p.number = lit "IX" ∨ p.number = lit "X" then 0
    else 1 + viiInsertPos ps

/-- The Part VII entry to insert: either built from the first matching
recovery pattern, or the synthesized placeholder with sentinel position `-1`. -/
def viiEntry (text : Str) : PartEntry :=
  match viiSearch text with
  | some (a, e) => ⟨lit "VII", viiTitle text, Int.ofNat a, (sliceL text a e).take 100⟩
  | none => ⟨lit "VII", defaultViiTitle, -1, lit "PART VII (manually added)"⟩

/-- The list of parts just before the final sort of
`_find_part_vii_specifically`. -/
def viiPresort (text : Str) (found : List PartEntry) : List PartEntry :=
  insertAt (viiInsertPos found) (viiEntry text) found

/-- `PDFParser._find_part_vii_specifically` (pdf_parser.py lines 190-282). -/
def find_part_vii_specifically (text : Str) (found : List PartEntry) : List PartEntry :=
  ssortParts (viiPresort text found)

/-- `PDFParser.extract_constitution_structure` (pdf_parser.py lines 26-126). -/
def extract_constitution_structure (md : Str) : ConstStructure :=
  let lines := splitNl md
  let (ps, arts, schs) := mainScan (withIdx 0 lines) []
  let ps1 := if ps.length < 22 then fix_missing_parts md ps else ps
  let ps2 :=
    if (ps1.map PartEntry.number).contains (lit "VII") then ps1
    else find_part_vii_specifically md ps1
  ⟨ps2, arts, schs⟩

/-! ## Statement-side helper definitions -/

/-- The text fed to structural extraction by `parse`: the input with the
preamble removed (parser.py lines 36-39). -/
def postPreamble (text : Str) : Str :=
  match find_first_structure text with
  | some k => if 0 < k then text.drop k else text
  | none => text

/-- Start of the next match after index `j - 1`, or `L` past the end: the
`matches[i+1].start() if i+1 < len(matches) else len(text)` bound. -/
def nextStartOf (ms : List (RMatch α)) (L : Nat) (j : Nat) : Nat :=
  match ms.get? j with
  | some t => t.start
  | none => L

/-- Marker-plus-content blocks `[start_i, start_(i+1))` (the last ending at `L`). -/
def blocksOf (L : Nat) (ms : List (RMatch α)) : List (Nat × Nat) :=
  (withNext L ms).map fun p => (p.1.start, p.2)

/-- The blocks `[match start, next match start)` of the chapter matches. -/
def chapterBlocks (t : Str) : List (Nat × Nat) := blocksOf t.length (chapterMatches t)

/-- The content spans `[match end, next match start)` assigned to chapters. -/
def chapterContentSpans (t : Str) : List (Nat × Nat) :=
  (withNext t.length (chapterMatches t)).map fun p => (p.1.stop, p.2)

/-! ## Lemmas about the match iterator -/

theorem finditerAux_congrFuel (m : Str → Option (Nat × α)) (s : Str) :
    ∀ f1 f2 p, s.length + 1 ≤ p + f1 → s.length + 1 ≤ p + f2 →
      finditerAux m s f1 p = finditerAux m s f2 p := by
  intro f1
  induction f1 with
  | zero =>
    intro f2 p h1 h2
    cases f2 with
    | zero => rfl
    | succ g =>
      have hp : s.length < p := by omega
      simp [finditerAux, hp]
  | succ f ih =>
    intro f2 p h1 h2
    cases f2 with
    | zero =>
      have hp : s.length < p := by omega
      simp [finditerAux, hp]
    | succ g =>
      by_cases hp : s.length < p
      · simp [finditerAux, hp]
      · by_cases ha : anchoredAt s p = true
        · cases hm : m (s.drop p) with
          | none =>
            simp only [finditerAux, hp, if_false, ha, if_true, hm]
            exact ih g (p + 1) (by omega) (by omega)
          | some v =>
            obtain ⟨len, a⟩ := v
            simp only [finditerAux, hp, if_false, ha, if_true, hm]
            refine congrArg _ (ih g _ ?_ ?_) <;>
              · by_cases hl : len = 0 <;> simp [hl] <;> omega
        · simp only [finditerAux, hp, if_false, ha]
          exact ih g (p + 1) (by omega) (by omega)

theorem mem_finditerAux (m : Str → Option (Nat × α)) (s : Str) :
    ∀ f p t, t ∈ finditerAux m s f p →
      p ≤ t.start ∧ t.start ≤ s.length ∧ anchoredAt s t.start = true ∧
        m (s.drop t.start) = some (t.len, t.val) := by
  intro f
  induction f with
  | zero => intro p t ht; simp [finditerAux] at ht
  | succ f ih =>
    intro p t ht
    by_cases hp : s.length < p
    · simp [finditerAux, hp] at ht
    · by_cases ha : anchoredAt s p = true
      · cases hm : m (s.drop p) with
        | none =>
          simp only [finditerAux, hp, if_false, ha, if_true, hm] at ht
          have := ih (p + 1) t ht
          exact ⟨by omega, this.2⟩
        | some v =>
          obtain ⟨len, a⟩ := v
          simp only [finditerAux, hp, if_false, ha, if_true, hm, List.mem_cons] at ht
          rcases ht with rfl | ht
          · exact ⟨le_refl _, by show p ≤ s.length; omega, ha, hm⟩
          · have := ih _ t ht
            refine ⟨?_, this.2⟩
            have h1 := this.1
            by_cases hl : len = 0 <;> simp [hl] at h1 <;> omega
      · simp only [finditerAux, hp, if_false, ha] at ht
        have := ih (p + 1) t ht
        exact ⟨by omega, this.2⟩

theorem finditerAux_skip (m : Str → Option (Nat × α)) (s : Str) :
    ∀ f p k, p ≤ k → s.length + 1 ≤ p + f →
      (∀ q, p ≤ q → q < k → ¬(anchoredAt s q = true ∧ (m (s.drop q)).isSome = true)) →
      finditerAux m s f p = finditerAux m s f k := by
  intro f
  induction f with
  | zero => intro p k _ _ _; rfl
  | succ f ih =>
    intro p k hpk hfuel hnone
    rcases Nat.eq_or_lt_of_le hpk with rfl | hlt
    · rfl
    · by_cases hp : s.length < p
      · have hk : s.length < k := by omega
        simp [finditerAux, hp, hk]
      · have hstep : finditerAux m s (f + 1) p = finditerAux m s f (p + 1) := by
          by_cases ha : anchoredAt s p = true
          · cases hm : m (s.drop p) with
            | none => simp [finditerAux, hp, ha, hm]
            | some v =>
              exact absurd ⟨ha, by simp [hm]⟩ (hnone p (le_refl _) hlt)
          · simp [finditerAux, hp, ha]
        rw [hstep, ih (p + 1) k (by omega) (by omega)
          (fun q hq1 hq2 => hnone q (by omega) hq2)]
        exact finditerAux_congrFuel m s f (f + 1) k (by omega) (by omega)

theorem finditerAux_shift (m : Str → Option (Nat × α)) (s : Str) (k : Nat)
    (hk : k ≤ s.length) (hanch : anchoredAt s k = true) :
    ∀ f p, k ≤ p →
      finditerAux m (s.drop k) f (p - k) =
        (finditerAux m s f p).map fun t => ⟨t.start - k, t.len, t.val⟩ := by
  intro f
  induction f with
  | zero => intro p _; rfl
  | succ f ih =>
    intro p hkp
    have hlen : (s.drop k).length = s.length - k := List.length_drop k s
    have hcond : ((s.drop k).length < p - k) ↔ (s.length < p) := by
      rw [hlen]; omega
    have hanch2 : anchoredAt (s.drop k) (p - k) = anchoredAt s p := by
      rcases Nat.eq_or_lt_of_le hkp with rfl | hlt
      · have h0 : anchoredAt (s.drop k) 0 = true := by simp [anchoredAt]
        rw [Nat.sub_self, h0, hanch]
      · have h1 : (p - k == 0) = false := by simp; omega
        have h2 : (p == 0) = false := by simp; omega
        have h3 : (s.drop k).get? (p - k - 1) = s.get? (p - 1) := by
          rw [List.get?_drop]
          congr 1
          omega
        unfold anchoredAt
        rw [h1, h2, h3]
    have hdrop : (s.drop k).drop (p - k) = s.drop p := by
      rw [List.drop_drop]
      congr 1
      omega
    simp only [finditerAux]
    rw [hanch2, hdrop]
    simp only [hcond]
    by_cases hp : s.length < p
    · rw [if_pos hp, if_pos hp, List.map_nil]
    · rw [if_neg hp, if_neg hp]
      by_cases ha : anchoredAt s p = true
      · rw [if_pos ha, if_pos ha]
        cases hm : m (s.drop p) with
        | none =>
          have harith : p - k + 1 = p + 1 - k := by omega
          rw [harith, ih (p + 1) (by omega)]
        | some v =>
          obtain ⟨len, a⟩ := v
          simp only [List.map_cons]
          refine congrArg₂ _ rfl ?_
          have harith : p - k + (if len == 0 then 1 else len) =
              p + (if len == 0 then 1 else len) - k := by
            by_cases hl : len = 0 <;> simp [hl] <;> omega
          rw [harith, ih _ (by by_cases hl : len = 0 <;> simp [hl] <;> omega)]
      · rw [if_neg ha, if_neg ha]
        have harith : p - k + 1 = p + 1 - k := by omega
        rw [harith, ih (p + 1) (by omega)]

theorem finditerAux_ne_nil (m : Str → Option (Nat × α)) (s : Str) :
    ∀ f p q, p ≤ q → q ≤ s.length → s.length + 1 ≤ p + f →
      anchoredAt s q = true → (m (s.drop q)).isSome = true →
      finditerAux m s f p ≠ [] := by
  intro f
  induction f with
  | zero => intro p q h1 h2 h3 _ _; omega
  | succ f ih =>
    intro p q hpq hq hfuel haq hmq
    have hp : ¬(s.length < p) := by omega
    by_cases ha : anchoredAt s p = true
    · cases hm : m (s.drop p) with
      | none =>
        rcases Nat.eq_or_lt_of_le hpq with rfl | hlt
        · rw [hm] at hmq; simp at hmq
        · simp only [finditerAux, hp, if_false, ha, if_true, hm]
          exact ih (p + 1) q (by omega) hq (by omega) haq hmq
      | some v =>
        obtain ⟨len, a⟩ := v
        simp [finditerAux, hp, ha, hm]
    · have hne : p ≠ q := fun h => by rw [h] at ha; exact ha haq
      simp only [finditerAux, hp, if_false, ha]
      exact ih (p + 1) q (by omega) hq (by omega) haq hmq

theorem finditerAux_head_least (m : Str → Option (Nat × α)) (s : Str) :
    ∀ f p t ts, finditerAux m s f p = t :: ts →
      ∀ q, p ≤ q → q < t.start →
        ¬(anchoredAt s q = true ∧ (m (s.drop q)).isSome = true) := by
  intro f
  induction f with
  | zero => intro p t ts h; simp [finditerAux] at h
  | succ f ih =>
    intro p t ts h q hpq hqt
    by_cases hp : s.length < p
    · simp [finditerAux, hp] at h
    · by_cases ha : anchoredAt s p = true
      · cases hm : m (s.drop p) with
        | none =>
          simp only [finditerAux, hp, if_false, ha, if_true, hm] at h
          rcases Nat.eq_or_lt_of_le hpq with rfl | hlt
          · intro hc; rw [hm] at hc; simp at hc
          · exact ih (p + 1) t ts h q (by omega) hqt
        | some v =>
          obtain ⟨len, a⟩ := v
          simp only [finditerAux, hp, if_false, ha, if_true, hm] at h
          have hts : t.start = p := by
            injection h with h1 h2
            rw [← h1]
          omega
      · simp only [finditerAux, hp, if_false, ha] at h
        rcases Nat.eq_or_lt_of_le hpq with rfl | hlt
        · intro hc; exact ha hc.1
        · exact ih (p + 1) t ts h q (by omega) hqt

/-- Consecutive matches do not overlap and strictly advance. -/
def MonoMatches : List (RMatch α) → Prop
  | [] => True
  | [_] => True
  | t :: t' :: rest => t.stop ≤ t'.start ∧ t.start < t'.start ∧ MonoMatches (t' :: rest)

theorem finditerAux_mono (m : Str → Option (Nat × α)) (s : Str) :
    ∀ f p, MonoMatches (finditerAux m s f p) := by
  intro f
  induction f with
  | zero => intro p; simp [finditerAux, MonoMatches]
  | succ f ih =>
    intro p
    by_cases hp : s.length < p
    · simp [finditerAux, hp, MonoMatches]
    · by_cases ha : anchoredAt s p = true
      · cases hm : m (s.drop p) with
        | none => simp only [finditerAux, hp, if_false, ha, if_true, hm]; exact ih (p + 1)
        | some v =>
          obtain ⟨len, a⟩ := v
          simp only [finditerAux, hp, if_false, ha, if_true, hm]
          cases htl : finditerAux m s f (p + (if len == 0 then 1 else len)) with
          | nil => simp [MonoMatches]
          | cons t' rest =>
            have ht' : t' ∈ finditerAux m s f (p + (if len == 0 then 1 else len)) := by
              rw [htl]; exact List.mem_cons_self _ _
            have hmem := mem_finditerAux m s f _ t' ht'
            refine ⟨?_, ?_, ?_⟩
            · show p + len ≤ t'.start
              have := hmem.1
              by_cases hl : len = 0 <;> simp [hl] at this ⊢ <;> omega
            · show p < t'.start
              have := hmem.1
              by_cases hl : len = 0 <;> simp [hl] at this <;> omega
            · rw [← htl]; exact ih _
      · simp only [finditerAux, hp, if_false, ha]; exact ih (p + 1)

theorem mem_finditerL (m : Str → Option (Nat × α)) (s : Str) (t : RMatch α)
    (ht : t ∈ finditerL m s) :
    t.start ≤ s.length ∧ anchoredAt s t.start = true ∧
      m (s.drop t.start) = some (t.len, t.val) :=
  (mem_finditerAux m s _ 0 t ht).2

theorem finditerL_mono (m : Str → Option (Nat × α)) (s : Str) :
    MonoMatches (finditerL m s) :=
  finditerAux_mono m s _ 0

/-- Dropping a prefix that ends at an anchored position `k` preceded by no
match shifts the match list by `k`. -/
theorem finditerL_drop (m : Str → Option (Nat × α)) (s : Str) (k : Nat)
    (hk : k ≤ s.length) (hanch : anchoredAt s k = true)
    (hnone : ∀ q, q < k → ¬(anchoredAt s q = true ∧ (m (s.drop q)).isSome = true)) :
    finditerL m (s.drop k) = (finditerL m s).map fun t => ⟨t.start - k, t.len, t.val⟩ := by
  unfold finditerL
  have h1 : finditerAux m (s.drop k) ((s.drop k).length + 2) 0 =
      finditerAux m (s.drop k) (s.length + 2) 0 := by
    apply finditerAux_congrFuel <;> simp [List.length_drop] <;> omega
  have h2 : finditerAux m (s.drop k) (s.length + 2) 0 =
      (finditerAux m s (s.length + 2) k).map fun t => ⟨t.start - k, t.len, t.val⟩ := by
    have := finditerAux_shift m s k hk hanch (s.length + 2) k (le_refl _)
    simpa using this
  have h3 : finditerAux m s (s.length + 2) k = finditerAux m s (s.length + 2) 0 := by
    exact (finditerAux_skip m s (s.length + 2) 0 k (Nat.zero_le _) (by omega)
      (fun q _ hq => hnone q hq)).symm
  rw [h1, h2, h3]

/-! ## Lemmas about `withNext` and blocks -/

theorem length_withNext (L : Nat) : ∀ ms : List (RMatch α), (withNext L ms).length = ms.length
  | [] => rfl
  | [_] => rfl
  | m :: m' :: rest => by
    have ih := length_withNext L (m' :: rest)
    show ((m, m'.start) :: withNext L (m' :: rest)).length = _
    simp only [List.length_cons, ih]

theorem get?_withNext (L : Nat) :
    ∀ (ms : List (RMatch α)) i,
      (withNext L ms).get? i = (ms.get? i).map fun t => (t, nextStartOf ms L (i + 1))
  | [], i => by simp [withNext]
  | [m], i => by
    cases i with
    | zero => simp [withNext, nextStartOf]
    | succ j => simp [withNext, nextStartOf]
  | m :: m' :: rest, i => by
    cases i with
    | zero => simp [withNext, nextStartOf]
    | succ j =>
      show (withNext L (m' :: rest)).get? j = _
      rw [get?_withNext L (m' :: rest) j]
      rfl

/-- Blocks chain head to tail from `a` to `L`. -/
def blocksChained : Nat → List (Nat × Nat) → Nat → Prop
  | a, [], L => a = L
  | a, be :: rest, L => be.1 = a ∧ a ≤ be.2 ∧ blocksChained be.2 rest L

theorem blocksChained_le : ∀ (bs : List (Nat × Nat)) a L, blocksChained a bs L → a ≤ L
  | [], a, L, h => Nat.le_of_eq h
  | be :: rest, a, L, h =>
    Nat.le_trans h.2.1 (blocksChained_le rest be.2 L h.2.2)

theorem blocksChained_mem : ∀ (bs : List (Nat × Nat)) a L, blocksChained a bs L →
    ∀ be ∈ bs, a ≤ be.1 ∧ be.1 ≤ be.2 ∧ be.2 ≤ L
  | [], _, _, _, be, hmem => absurd hmem (List.not_mem_nil be)
  | ce :: crest, a, L, h, be, hmem => by
    rcases List.mem_cons.mp hmem with rfl | hmem2
    · refine ⟨Nat.le_of_eq h.1.symm, ?_, blocksChained_le crest be.2 L h.2.2⟩
      have := h.2.1
      have := h.1
      omega
    · have hrec := blocksChained_mem crest ce.2 L h.2.2 be hmem2
      exact ⟨Nat.le_trans h.2.1 hrec.1, hrec.2⟩

theorem blocksChained_partition :
    ∀ (bs : List (Nat × Nat)) a L, blocksChained a bs L →
      ∀ pos, a ≤ pos → pos < L →
        ∃! i, ∃ b e, bs.get? i = some (b, e) ∧ b ≤ pos ∧ pos < e := by
  intro bs
  induction bs with
  | nil => intro a L h pos h1 h2; rw [show a = L from h] at h1; omega
  | cons be rest ih =>
    intro a L h pos h1 h2
    obtain ⟨hb, hae, hrest⟩ := h
    by_cases hin : pos < be.2
    · refine ⟨0, ⟨be.1, be.2, by simp, by omega, hin⟩, ?_⟩
      rintro j ⟨b, e, hget, hble, hlt⟩
      cases j with
      | zero => rfl
      | succ j' =>
        exfalso
        simp only [List.get?_cons_succ] at hget
        have hmem : (b, e) ∈ rest := List.get?_mem hget
        have hbound := blocksChained_mem rest be.2 L hrest (b, e) hmem
        have : be.2 ≤ b := hbound.1
        omega
    · have hpos2 : be.2 ≤ pos := by omega
      obtain ⟨j, hj, huniq⟩ := ih be.2 L hrest pos hpos2 h2
      refine ⟨j + 1, by simpa using hj, ?_⟩
      rintro j' ⟨b, e, hget, hble, hlt⟩
      cases j' with
      | zero =>
        exfalso
        simp only [List.get?_cons_zero, Option.some.injEq] at hget
        have he : e = be.2 := by rw [hget]
        omega
      | succ j'' =>
        simp only [List.get?_cons_succ] at hget
        exact congrArg (· + 1) (huniq j'' ⟨b, e, hget, hble, hlt⟩)

theorem blocksOf_chained (L : Nat) :
    ∀ (ts : List (RMatch α)) (t0 : RMatch α), MonoMatches (t0 :: ts) →
      (∀ t ∈ t0 :: ts, t.start ≤ L) →
      blocksChained t0.start (blocksOf L (t0 :: ts)) L := by
  intro ts
  induction ts with
  | nil =>
    intro t0 _ hle
    exact ⟨rfl, hle t0 (List.mem_cons_self _ _), rfl⟩
  | cons m' rest ih =>
    intro t0 hmono hle
    obtain ⟨_, hlt, hmono'⟩ := hmono
    show blocksChained t0.start ((t0.start, m'.start) :: blocksOf L (m' :: rest)) L
    exact ⟨rfl, Nat.le_of_lt hlt,
      ih m' hmono' (fun t ht => hle t (List.mem_cons_of_mem _ ht))⟩

/-! ## Lemmas about `find_first_structure` and the extractors -/

theorem minList_eq_none : ∀ l : List Nat, minList l = none → l = [] := by
  intro l h
  cases l with
  | nil => rfl
  | cons x xs =>
    exfalso
    unfold minList at h
    cases hxs : minList xs <;> rw [hxs] at h <;> cases h

theorem minList_mem : ∀ l a, minList l = some a → a ∈ l := by
  intro l
  induction l with
  | nil => intro a h; cases h
  | cons x xs ih =>
    intro a h
    unfold minList at h
    cases hxs : minList xs with
    | none =>
      rw [hxs] at h
      injection h with h
      subst h
      exact List.mem_cons_self _ _
    | some b =>
      rw [hxs] at h
      injection h with h
      subst h
      rcases le_total x b with hxb | hxb
      · rw [min_eq_left hxb]; exact List.mem_cons_self _ _
      · rw [min_eq_right hxb]; exact List.mem_cons_of_mem _ (ih b hxs)

theorem minList_le : ∀ l a, minList l = some a → ∀ x ∈ l, a ≤ x := by
  intro l
  induction l with
  | nil => intro a h; cases h
  | cons y xs ih =>
    intro a h x hx
    unfold minList at h
    cases hxs : minList xs with
    | none =>
      rw [hxs] at h
      injection h with h
      subst h
      rcases List.mem_cons.mp hx with rfl | hx2
      · exact le_refl _
      · rw [minList_eq_none xs hxs] at hx2; cases hx2
    | some b =>
      rw [hxs] at h
      injection h with h
      subst h
      rcases List.mem_cons.mp hx with rfl | hx2
      · exact min_le_left _ _
      · exact le_trans (min_le_right _ _) (ih b hxs x hx2)

/-- The first match of a scan starts no later than any other match. -/
theorem monoMatches_head_le :
    ∀ (ts : List (RMatch α)) (t0 : RMatch α), MonoMatches (t0 :: ts) →
      ∀ m ∈ ts, t0.start ≤ m.start := by
  intro ts
  induction ts with
  | nil => intro t0 _ m hm; cases hm
  | cons t1 ts1 ih =>
    intro t0 hmono m hm
    obtain ⟨_, hlt, hmono'⟩ := hmono
    rcases List.mem_cons.mp hm with rfl | hm2
    · omega
    · have := ih t1 hmono' m hm2
      omega

/-- If no pattern matches at all, all three match lists are empty. -/
theorem ffs_none (t : Str) (h : find_first_structure t = none) :
    chapterMatches t = [] ∧ articleMatches t = [] ∧ sectionMatches t = [] := by
  unfold find_first_structure at h
  have hnil := minList_eq_none _ h
  rw [List.filterMap_eq_nil] at hnil
  refine ⟨?_, ?_, ?_⟩
  · have hc := hnil (chapterMatches t) (by simp)
    cases hcm : chapterMatches t with
    | nil => rfl
    | cons m ms => rw [hcm] at hc; simp at hc
  · have hc := hnil (articleMatches t) (by simp)
    cases hcm : articleMatches t with
    | nil => rfl
    | cons m ms => rw [hcm] at hc; simp at hc
  · have hc := hnil (sectionMatches t) (by simp)
    cases hcm : sectionMatches t with
    | nil => rfl
    | cons m ms => rw [hcm] at hc; simp at hc

/-- A position returned by `find_first_structure` is an anchored line start
within the text, and it is a lower bound for every match of each pattern. -/
theorem ffs_some (t : Str) (k : Nat) (h : find_first_structure t = some k) :
    (anchoredAt t k = true ∧ k ≤ t.length) ∧
      (∀ m ∈ chapterMatches t, k ≤ m.start) ∧
      (∀ m ∈ articleMatches t, k ≤ m.start) ∧
      (∀ m ∈ sectionMatches t, k ≤ m.start) := by
  unfold find_first_structure at h
  constructor
  · have hmem := minList_mem _ _ h
    rw [List.mem_filterMap] at hmem
    obtain ⟨ms, hms, heq⟩ := hmem
    simp only [List.mem_cons, List.not_mem_nil, or_false] at hms
    obtain ⟨t0, ht0, rfl⟩ : ∃ t0, ms.head? = some t0 ∧ t0.start = k := by
      cases hh : ms.head? with
      | none => rw [hh] at heq; cases heq
      | some t0 => rw [hh] at heq; exact ⟨t0, rfl, by injection heq⟩
    have ht0mem : t0 ∈ ms := by
      cases ms with
      | nil => cases ht0
      | cons x xs => injection ht0 with ht0; exact ht0 ▸ List.mem_cons_self _ _
    rcases hms with rfl | rfl | rfl
    · have := mem_finditerL _ t t0 ht0mem
      exact ⟨this.2.1, this.1⟩
    · have := mem_finditerL _ t t0 ht0mem
      exact ⟨this.2.1, this.1⟩
    · have := mem_finditerL _ t t0 ht0mem
      exact ⟨this.2.1, this.1⟩
  · have hle := minList_le _ _ h
    refine ⟨?_, ?_, ?_⟩ <;>
      intro m hm
    · cases hcm : chapterMatches t with
      | nil => rw [hcm] at hm; cases hm
      | cons t0 ts =>
        have h0 : k ≤ t0.start := by
          apply hle
          rw [List.mem_filterMap]
          exact ⟨chapterMatches t, by simp, by rw [hcm]; rfl⟩
        have hmono : MonoMatches (t0 :: ts) := by
          have hmm := finditerL_mono matchChapter t
          rwa [show finditerL matchChapter t = chapterMatches t from rfl, hcm] at hmm
        rw [hcm] at hm
        rcases List.mem_cons.mp hm with rfl | hm2
        · exact h0
        · exact le_trans h0 (monoMatches_head_le ts t0 hmono m hm2)
    · cases hcm : articleMatches t with
      | nil => rw [hcm] at hm; cases hm
      | cons t0 ts =>
        have h0 : k ≤ t0.start := by
          apply hle
          rw [List.mem_filterMap]
          exact ⟨articleMatches t, by simp, by rw [hcm]; rfl⟩
        have hmono : MonoMatches (t0 :: ts) := by
          have hmm := finditerL_mono matchArticle t
          rwa [show finditerL matchArticle t = articleMatches t from rfl, hcm] at hmm
        rw [hcm] at hm
        rcases List.mem_cons.mp hm with rfl | hm2
        · exact h0
        · exact le_trans h0 (monoMatches_head_le ts t0 hmono m hm2)
    · cases hcm : sectionMatches t with
      | nil => rw [hcm] at hm; cases hm
      | cons t0 ts =>
        have h0 : k ≤ t0.start := by
          apply hle
          rw [List.mem_filterMap]
          exact ⟨sectionMatches t, by simp, by rw [hcm]; rfl⟩
        have hmono : MonoMatches (t0 :: ts) := by
          have hmm := finditerL_mono matchSection t
          rwa [show finditerL matchSection t = sectionMatches t from rfl, hcm] at hmm
        rw [hcm] at hm
        rcases List.mem_cons.mp hm with rfl | hm2
        · exact h0
        · exact le_trans h0 (monoMatches_head_le ts t0 hmono m hm2)

theorem extract_chapters_nil (t : Str) (h : chapterMatches t = []) :
    extract_chapters t = [] := by
  unfold extract_chapters
  rw [h]
  rfl

theorem extract_articles_nil (t : Str) (h : articleMatches t = []) :
    extract_articles t = [] := by
  unfold extract_articles
  rw [h]
  rfl

theorem extract_sections_nil (t : Str) (h : sectionMatches t = []) :
    extract_sections t = [] := by
  unfold extract_sections
  rw [h]
  rfl

theorem length_extract_chapters (t : Str) :
    (extract_chapters t).length = (chapterMatches t).length := by
  unfold extract_chapters
  rw [List.length_map, length_withNext]

theorem length_extract_articles (t : Str) :
    (extract_articles t).length = (articleMatches t).length := by
  unfold extract_articles
  rw [List.length_map, length_withNext]

theorem postPreamble_none (text : Str) (h : find_first_structure text = none) :
    postPreamble text = text := by
  unfold postPreamble; rw [h]

theorem postPreamble_pos (text : Str) (k : Nat) (h : find_first_structure text = some k)
    (h0 : 0 < k) : postPreamble text = text.drop k := by
  unfold postPreamble; rw [h]; exact if_pos h0

theorem postPreamble_zero (text : Str) (k : Nat) (h : find_first_structure text = some k)
    (h0 : ¬0 < k) : postPreamble text = text := by
  unfold postPreamble; rw [h]; exact if_neg h0

theorem parse_chapters_eq (text : Str) (md : Option DocMetadata) :
    (parse text md).chapters = extract_chapters (postPreamble text) := by
  cases hf : find_first_structure text with
  | none =>
    rw [postPreamble_none text hf]
    unfold parse
    rw [hf]
    cases hc : extract_chapters text with
    | nil => cases ha : extract_articles text <;> simp [hc, ha]
    | cons c cs => simp [hc]
  | some k =>
    by_cases h0 : 0 < k
    · rw [postPreamble_pos text k hf h0]
      unfold parse
      rw [hf]
      simp only [h0, if_true]
      cases hc : extract_chapters (text.drop k) with
      | nil => cases ha : extract_articles (text.drop k) <;> simp [hc, ha]
      | cons c cs => simp [hc]
    · rw [postPreamble_zero text k hf h0]
      unfold parse
      rw [hf]
      simp only [h0, if_false]
      cases hc : extract_chapters text with
      | nil => cases ha : extract_articles text <;> simp [hc, ha]
      | cons c cs => simp [hc]

theorem parse_articles_eq (text : Str) (md : Option DocMetadata)
    (hch : extract_chapters (postPreamble text) = []) :
    (parse text md).articles = extract_articles (postPreamble text) := by
  cases hf : find_first_structure text with
  | none =>
    rw [postPreamble_none text hf] at hch ⊢
    unfold parse
    rw [hf]
    cases ha : extract_articles text <;> simp [hch, ha]
  | some k =>
    by_cases h0 : 0 < k
    · rw [postPreamble_pos text k hf h0] at hch ⊢
      unfold parse
      rw [hf]
      simp only [h0, if_true]
      cases ha : extract_articles (text.drop k) <;> simp [hch, ha]
    · rw [postPreamble_zero text k hf h0] at hch ⊢
      unfold parse
      rw [hf]
      simp only [h0, if_false]
      cases ha : extract_articles text <;> simp [hch, ha]

theorem parse_sections_eq (text : Str) (md : Option DocMetadata)
    (hch : extract_chapters (postPreamble text) = [])
    (har : extract_articles (postPreamble text) = []) :
    (parse text md).sections = extract_sections (postPreamble text) := by
  cases hf : find_first_structure text with
  | none =>
    rw [postPreamble_none text hf] at hch har ⊢
    unfold parse
    rw [hf]
    simp [hch, har]
  | some k =>
    by_cases h0 : 0 < k
    · rw [postPreamble_pos text k hf h0] at hch har ⊢
      unfold parse
      rw [hf]
      simp only [h0, if_true]
      simp [hch, har]
    · rw [postPreamble_zero text k hf h0] at hch har ⊢
      unfold parse
      rw [hf]
      simp only [h0, if_false]
      simp [hch, har]

theorem parse_preamble_eq (text : Str) (md : Option DocMetadata) :
    (parse text md).preamble =
      match find_first_structure text with
      | some k => if 0 < k then some (pstrip (text.take k)) else none
      | none => none := by
  cases hf : find_first_structure text with
  | none =>
    unfold parse
    rw [hf]
    cases hc : extract_chapters text with
    | nil => cases ha : extract_articles text <;> simp [hc, ha]
    | cons c cs => simp [hc]
  | some k =>
    unfold parse
    rw [hf]
    by_cases h0 : 0 < k <;>
      simp only [h0, if_true, if_false]
    · cases hc : extract_chapters (text.drop k) with
      | nil => cases ha : extract_articles (text.drop k) <;> simp [hc, ha]
      | cons c cs => simp [hc]
    · cases hc : extract_chapters text with
      | nil => cases ha : extract_articles text <;> simp [hc, ha]
      | cons c cs => simp [hc]

/-! ## Lemmas about insertion and the stable sort -/

theorem mem_insertAt_self : ∀ (n : Nat) (x : α) (l : List α), x ∈ insertAt n x l
  | 0, _, _ => List.mem_cons_self _ _
  | _ + 1, _, [] => List.mem_cons_self _ _
  | n + 1, x, a :: l => List.mem_cons_of_mem a (mem_insertAt_self n x l)

theorem insertAt_perm : ∀ (n : Nat) (x : α) (l : List α), (insertAt n x l).Perm (x :: l)
  | 0, _, _ => List.Perm.refl _
  | _ + 1, _, [] => List.Perm.refl _
  | n + 1, x, a :: l =>
    List.Perm.trans (List.Perm.cons a (insertAt_perm n x l)) (List.Perm.swap x a l)

/-- Whether a part list is sorted by the canonical key. -/
def sortedByKey : List PartEntry → Bool
  | [] => true
  | [_] => true
  | a :: b :: l => if pkey a ≤ pkey b then sortedByKey (b :: l) else false

theorem sinsertPart_sorted (a : PartEntry) :
    ∀ l, sortedByKey l = true → sortedByKey (sinsertPart a l) = true := by
  intro l
  induction l with
  | nil => intro _; rfl
  | cons b bs ih =>
    intro h
    by_cases hba : pkey b ≤ pkey a
    · rw [show sinsertPart a (b :: bs) = b :: sinsertPart a bs from by
        simp [sinsertPart, hba]]
      cases bs with
      | nil => simp [sinsertPart, sortedByKey, hba]
      | cons c cs =>
        have hsort : sortedByKey (c :: cs) = true := by
          unfold sortedByKey at h
          by_cases hbc : pkey b ≤ pkey c
          · rwa [if_pos hbc] at h
          · rw [if_neg hbc] at h; cases h
        have hbc : pkey b ≤ pkey c := by
          unfold sortedByKey at h
          by_cases hbc : pkey b ≤ pkey c
          · exact hbc
          · rw [if_neg hbc] at h; cases h
        by_cases hca : pkey c ≤ pkey a
        · have hrec := ih hsort
          rw [show sinsertPart a (c :: cs) = c :: sinsertPart a cs from by
            simp [sinsertPart, hca]] at hrec ⊢
          show sortedByKey (b :: c :: sinsertPart a cs) = true
          unfold sortedByKey
          rw [if_pos hbc]
          exact hrec
        · rw [show sinsertPart a (c :: cs) = a :: c :: cs from by
            simp [sinsertPart, hca]]
          show sortedByKey (b :: a :: c :: cs) = true
          unfold sortedByKey
          rw [if_pos hba]
          unfold sortedByKey
          rw [if_pos (by omega)]
          exact hsort
    · rw [show sinsertPart a (b :: bs) = a :: b :: bs from by
        simp [sinsertPart, hba]]
      unfold sortedByKey
      rw [if_pos (by omega)]
      exact h

theorem ssortParts_sorted : ∀ l, sortedByKey (ssortParts l) = true := by
  intro l
  induction l with
  | nil => rfl
  | cons a l ih => exact sinsertPart_sorted a (ssortParts l) ih

theorem sinsertPart_perm (a : PartEntry) : ∀ l, (sinsertPart a l).Perm (a :: l) := by
  intro l
  induction l with
  | nil => exact List.Perm.refl _
  | cons b bs ih =>
    by_cases hba : pkey b ≤ pkey a
    · rw [show sinsertPart a (b :: bs) = b :: sinsertPart a bs from by
        simp [sinsertPart, hba]]
      exact List.Perm.trans (List.Perm.cons b ih) (List.Perm.swap a b bs)
    · rw [show sinsertPart a (b :: bs) = a :: b :: bs from by
        simp [sinsertPart, hba]]

theorem ssortParts_perm : ∀ l, (ssortParts l).Perm l := by
  intro l
  induction l with
  | nil => exact List.Perm.refl _
  | cons a l ih =>
    exact List.Perm.trans (sinsertPart_perm a (ssortParts l)) (List.Perm.cons a ih)

theorem mem_ssortParts (x : PartEntry) (l : List PartEntry) :
    x ∈ ssortParts l ↔ x ∈ l :=
  (ssortParts_perm l).mem_iff

/-- Boolean membership of a string list agrees with membership. -/
theorem strContains_iff (l : List Str) (x : Str) : l.contains x = true ↔ x ∈ l := by
  simp

/-! ## Lemmas about the repair passes -/

theorem recoverEntry_number (text r : Str) (hit : Nat × Nat) :
    (recoverEntry text r hit).number = r := rfl

theorem recover_part_number (text r : Str) (e : PartEntry)
    (h : recover_part text r = some e) : e.number = r := by
  unfold recover_part at h
  cases h0 : fixPatSearch 0 r text with
  | some v => rw [h0] at h; injection h with h; rw [← h]; rfl
  | none =>
    rw [h0] at h
    cases h1 : fixPatSearch 1 r text with
    | some v => rw [h1] at h; injection h with h; rw [← h]; rfl
    | none =>
      rw [h1] at h
      cases h2 : fixPatSearch 2 r text with
      | some v => rw [h2] at h; injection h with h; rw [← h]; rfl
      | none =>
        rw [h2] at h
        cases h3 : fixPatSearch 3 r text with
        | some v => rw [h3] at h; injection h with h; rw [← h]; rfl
        | none => rw [h3] at h; cases h

theorem viiEntry_number (text : Str) : (viiEntry text).number = lit "VII" := by
  unfold viiEntry
  cases h : viiSearch text with
  | none => rfl
  | some v => cases v; rfl

theorem fixGo_nodup (text : Str) : ∀ (exps nums : List Str) (parts : List PartEntry),
    (parts.map PartEntry.number).Nodup →
    (∀ n ∈ parts.map PartEntry.number, n ∈ nums) →
    ((fixGo text exps nums parts).map PartEntry.number).Nodup := by
  intro exps
  induction exps with
  | nil => intro nums parts h1 _; exact h1
  | cons r rest ih =>
    intro nums parts h1 h2
    unfold fixGo
    by_cases hc : nums.contains r = true
    · rw [if_pos hc]; exact ih nums parts h1 h2
    · rw [if_neg hc]
      cases hrec : recover_part text r with
      | none => exact ih nums parts h1 h2
      | some e =>
        have hperm : ((insertAt (insertPosFix parts r) e parts).map PartEntry.number).Perm
            (e.number :: parts.map PartEntry.number) :=
          (insertAt_perm (insertPosFix parts r) e parts).map PartEntry.number
        have henum : e.number = r := recover_part_number text r e hrec
        have hrnot : r ∉ parts.map PartEntry.number := by
          intro hmem
          exact hc ((strContains_iff nums r).mpr (h2 r hmem))
        apply ih
        · rw [hperm.nodup_iff]
          exact List.nodup_cons.mpr ⟨by rw [henum]; exact hrnot, h1⟩
        · intro n hn
          rcases List.mem_cons.mp (hperm.mem_iff.mp hn) with rfl | hmem
          · rw [henum]; exact List.mem_cons_self _ _
          · exact List.mem_cons_of_mem _ (h2 n hmem)

/-! ## Candidate characterization of the line scan -/

/-- The part entry a single line would contribute, ignoring deduplication. -/
def partCandidate (ir : Nat × Str) : Option PartEntry :=
  let line := pstrip ir.2
  if line = [] then none
  else
    match Option.orElse (matchPartMdLine line) fun _ => matchPartTextLine line with
    | some (n, t) => some ⟨upperStr n, cleanTitle t, Int.ofNat ir.1, line⟩
    | none => none

/-- The article entry a single line contributes. -/
def articleCandidate (ir : Nat × Str) : Option ArticleEntry :=
  let line := pstrip ir.2
  if line = [] then none
  else
    match Option.orElse (matchArticleMdLine line) fun _ => matchArticleTextLine line with
    | some (n, t) => some ⟨n, cleanTitle t, Int.ofNat ir.1, line⟩
    | none => none

/-- Keep the first entry per part number, dropping later duplicates. -/
def dedupByNumber : List PartEntry → List Str → List PartEntry
  | [], _ => []
  | p :: ps, seen =>
    if seen.contains p.number then dedupByNumber ps seen
    else p :: dedupByNumber ps (p.number :: seen)

theorem mainScan_parts : ∀ (ls : List (Nat × Str)) (seen : List Str),
    (mainScan ls seen).1 = dedupByNumber (ls.filterMap partCandidate) seen := by
  intro ls
  induction ls with
  | nil => intro seen; rfl
  | cons ir rest ih =>
    intro seen
    obtain ⟨i, raw⟩ := ir
    rw [List.filterMap_cons]
    by_cases hline : pstrip raw = []
    · have h1 : mainScan ((i, raw) :: rest) seen = mainScan rest seen := by
        simp [mainScan, hline]
      have h2 : partCandidate (i, raw) = none := by
        simp [partCandidate, hline]
      rw [h1]
      simp only [h2]
      exact ih seen
    · cases hpm : Option.orElse (matchPartMdLine (pstrip raw))
        (fun _ => matchPartTextLine (pstrip raw)) with
      | none =>
        have h1 : (mainScan ((i, raw) :: rest) seen).1 = (mainScan rest seen).1 := by
          simp [mainScan, hline, hpm]
        have h2 : partCandidate (i, raw) = none := by
          simp [partCandidate, hline, hpm]
        rw [h1]
        simp only [h2]
        exact ih seen
      | some nt =>
        obtain ⟨n, t⟩ := nt
        have h2 : partCandidate (i, raw) =
            some ⟨upperStr n, cleanTitle t, Int.ofNat i, pstrip raw⟩ := by
          simp [partCandidate, hline, hpm]
        simp only [h2]
        by_cases hseenm : upperStr n ∈ seen
        · have h1 : (mainScan ((i, raw) :: rest) seen).1 = (mainScan rest seen).1 := by
            simp [mainScan, hline, hpm, hseenm]
          rw [h1]
          rw [show dedupByNumber
              (⟨upperStr n, cleanTitle t, Int.ofNat i, pstrip raw⟩ ::
                rest.filterMap partCandidate) seen =
              dedupByNumber (rest.filterMap partCandidate) seen from by
            simp [dedupByNumber, hseenm]]
          exact ih seen
        · have h1 : (mainScan ((i, raw) :: rest) seen).1 =
              ⟨upperStr n, cleanTitle t, Int.ofNat i, pstrip raw⟩ ::
                (mainScan rest (upperStr n :: seen)).1 := by
            simp [mainScan, hline, hpm, hseenm]
          rw [h1]
          rw [show dedupByNumber
              (⟨upperStr n, cleanTitle t, Int.ofNat i, pstrip raw⟩ ::
                rest.filterMap partCandidate) seen =
              ⟨upperStr n, cleanTitle t, Int.ofNat i, pstrip raw⟩ ::
                dedupByNumber (rest.filterMap partCandidate) (upperStr n :: seen) from by
            simp [dedupByNumber, hseenm]]
          exact congrArg _ (ih (upperStr n :: seen))

theorem mainScan_articles : ∀ (ls : List (Nat × Str)) (seen : List Str),
    (mainScan ls seen).2.1 = ls.filterMap articleCandidate := by
  intro ls
  induction ls with
  | nil => intro seen; rfl
  | cons ir rest ih =>
    intro seen
    obtain ⟨i, raw⟩ := ir
    rw [List.filterMap_cons]
    by_cases hline : pstrip raw = []
    · have h1 : mainScan ((i, raw) :: rest) seen = mainScan rest seen := by
        simp [mainScan, hline]
      have h2 : articleCandidate (i, raw) = none := by
        simp [articleCandidate, hline]
      rw [h1]
      simp only [h2]
      exact ih seen
    · cases ham : Option.orElse (matchArticleMdLine (pstrip raw))
        (fun _ => matchArticleTextLine (pstrip raw)) with
      | none =>
        have h2 : articleCandidate (i, raw) = none := by
          simp [articleCandidate, hline, ham]
        simp only [h2]
        cases hpm : Option.orElse (matchPartMdLine (pstrip raw))
          (fun _ => matchPartTextLine (pstrip raw)) with
        | none =>
          have h1 : (mainScan ((i, raw) :: rest) seen).2.1 = (mainScan rest seen).2.1 := by
            simp [mainScan, hline, ham, hpm]
          rw [h1]
          exact ih seen
        | some nt2 =>
          obtain ⟨n2, t2⟩ := nt2
          by_cases hseenm : upperStr n2 ∈ seen
          · have h1 : (mainScan ((i, raw) :: rest) seen).2.1 = (mainScan rest seen).2.1 := by
              simp [mainScan, hline, ham, hpm, hseenm]
            rw [h1]
            exact ih seen
          · have h1 : (mainScan ((i, raw) :: rest) seen).2.1 =
                (mainScan rest (upperStr n2 :: seen)).2.1 := by
              simp [mainScan, hline, ham, hpm, hseenm]
            rw [h1]
            exact ih _
      | some nt =>
        obtain ⟨n, t⟩ := nt
        have h2 : articleCandidate (i, raw) =
            some ⟨n, cleanTitle t, Int.ofNat i, pstrip raw⟩ := by
          simp [articleCandidate, hline, ham]
        simp only [h2]
        cases hpm : Option.orElse (matchPartMdLine (pstrip raw))
          (fun _ => matchPartTextLine (pstrip raw)) with
        | none =>
          have h1 : (mainScan ((i, raw) :: rest) seen).2.1 =
              ⟨n, cleanTitle t, Int.ofNat i, pstrip raw⟩ :: (mainScan rest seen).2.1 := by
            simp [mainScan, hline, ham, hpm]
          rw [h1, ih seen]
        | some nt2 =>
          obtain ⟨n2, t2⟩ := nt2
          by_cases hseenm : upperStr n2 ∈ seen
          · have h1 : (mainScan ((i, raw) :: rest) seen).2.1 =
                ⟨n, cleanTitle t, Int.ofNat i, pstrip raw⟩ :: (mainScan rest seen).2.1 := by
              simp [mainScan, hline, ham, hpm, hseenm]
            rw [h1, ih seen]
          · have h1 : (mainScan ((i, raw) :: rest) seen).2.1 =
                ⟨n, cleanTitle t, Int.ofNat i, pstrip raw⟩ ::
                  (mainScan rest (upperStr n2 :: seen)).2.1 := by
              simp [mainScan, hline, ham, hpm, hseenm]
            rw [h1, ih _]

theorem dedupByNumber_nodup : ∀ (l : List PartEntry) (seen : List Str),
    (((dedupByNumber l seen).map PartEntry.number).Nodup) ∧
      (∀ n ∈ (dedupByNumber l seen).map PartEntry.number, n ∉ seen) := by
  intro l
  induction l with
  | nil => intro seen; exact ⟨List.nodup_nil, fun n hn => absurd hn (List.not_mem_nil n)⟩
  | cons p ps ih =>
    intro seen
    unfold dedupByNumber
    by_cases hc : seen.contains p.number = true
    · rw [if_pos hc]; exact ih seen
    · rw [if_neg hc]
      obtain ⟨ihn, ihs⟩ := ih (p.number :: seen)
      refine ⟨?_, ?_⟩
      · rw [List.map_cons]
        refine List.nodup_cons.mpr ⟨?_, ihn⟩
        intro hmem
        exact ihs p.number hmem (List.mem_cons_self _ _)
      · rw [List.map_cons]
        intro n hn
        rcases List.mem_cons.mp hn with rfl | hmem
        · intro hns
          exact hc ((strContains_iff seen p.number).mpr hns)
        · intro hns
          exact ihs n hmem (List.mem_cons_of_mem _ hns)

/-! ## Claim theorems -/

/-- C9: `parse` is a total function that never raises; when no structural
marker matches anywhere (in particular on empty input) it returns a document
with no preamble and zero structural units — empty chapters, articles and
sections — leaving handling to the caller. -/
theorem claim_C9 : ∀ (text : Str) (md : Option DocMetadata),
    find_first_structure text = none →
      (parse text md).preamble = none ∧ (parse text md).chapters = [] ∧
        (parse text md).articles = [] ∧ (parse text md).sections = [] := by
  intro text md hf
  obtain ⟨hc, ha, hs⟩ := ffs_none text hf
  have hpp := postPreamble_none text hf
  have hch : extract_chapters (postPreamble text) = [] := by
    rw [hpp]; exact extract_chapters_nil text hc
  have har : extract_articles (postPreamble text) = [] := by
    rw [hpp]; exact extract_articles_nil text ha
  have hse : extract_sections (postPreamble text) = [] := by
    rw [hpp]; exact extract_sections_nil text hs
  refine ⟨?_, ?_, ?_, ?_⟩
  · rw [parse_preamble_eq, hf]
  · rw [parse_chapters_eq]; exact hch
  · rw [parse_articles_eq text md hch]; exact har
  · rw [parse_sections_eq text md hch har]; exact hse

/-- Witness for C9: the empty input yields no preamble and zero structural
units. -/
theorem claim_C9_witness :
    (parse (lit "") none).preamble = none ∧ (parse (lit "") none).chapters = [] ∧
      (parse (lit "") none).articles = [] ∧ (parse (lit "") none).sections = [] :=
  claim_C9 (lit "") none rfl

/-- C3 counterexample: the line "Article 31A" is NOT extracted with number
"31A" and id "art_31A"; the article pattern of parser.py has no letter
suffix in its number group, so the number is "31", the id is "art_31", and
the suffix lands at the start of the heading. -/
theorem claim_C3_counterexample :
    (extract_articles (lit "Article 31A")).map PArticle.id = [lit "art_31"] ∧
      (extract_articles (lit "Article 31A")).map PArticle.number = [lit "31"] ∧
      (lit "art_31" : Str) ≠ lit "art_31A" :=
  ⟨rfl, rfl, by decide⟩

/-- C3 (amended): a section with dotted number "2.1.3" receives id
"sec_2_1_3" (dots replaced with underscores); an article whose marker line
is "Article 31A" is extracted with number "31" and id "art_31", the trailing
letter suffix becoming the start of the heading ("A"). -/
theorem claim_C3_amended :
    (extract_sections (lit "Section 2.1.3 - X\nbody")).map PSection.id =
        [lit "sec_2_1_3"] ∧
      (extract_sections (lit "Section 2.1.3 - X\nbody")).map PSection.number =
        [lit "2.1.3"] ∧
      (extract_articles (lit "Article 31A")).map PArticle.id = [lit "art_31"] ∧
      (extract_articles (lit "Article 31A")).map PArticle.number = [lit "31"] ∧
      (extract_articles (lit "Article 31A")).map PArticle.heading = [some (lit "A")] :=
  ⟨rfl, rfl, rfl, rfl, rfl⟩

/-- C6: on a found-parts list missing "III" and the text
"PART III - FREEDOMS", `_fix_missing_parts` inserts part "III" between II
and IV with heading "FREEDOMS" (punctuation stripped); and in general a
missing canonical part is recovered by trying the four fallback patterns in
order against the whole text and accepting the first that matches. -/
theorem claim_C6 :
    (fix_missing_parts (lit "PART III - FREEDOMS")
        [⟨lit "I", lit "A", 0, lit ""⟩, ⟨lit "II", lit "B", 1, lit ""⟩,
         ⟨lit "IV", lit "D", 2, lit ""⟩, ⟨lit "V", lit "E", 3, lit ""⟩] =
      [⟨lit "I", lit "A", 0, lit ""⟩, ⟨lit "II", lit "B", 1, lit ""⟩,
       ⟨lit "III", lit "FREEDOMS", 0, lit "PART III"⟩,
       ⟨lit "IV", lit "D", 2, lit ""⟩, ⟨lit "V", lit "E", 3, lit ""⟩]) ∧
    (∀ (text r : Str) (e : PartEntry), recover_part text r = some e →
      ∃ k hit, k < 4 ∧ fixPatSearch k r text = some hit ∧
        (∀ j, j < k → fixPatSearch j r text = none) ∧
        e = recoverEntry text r hit) := by
  constructor
  · rfl
  · intro text r e h
    unfold recover_part at h
    cases h0 : fixPatSearch 0 r text with
    | some v =>
      rw [h0] at h
      injection h with h
      exact ⟨0, v, by omega, h0, fun j hj => absurd hj (by omega), h.symm⟩
    | none =>
      rw [h0] at h
      cases h1 : fixPatSearch 1 r text with
      | some v =>
        rw [h1] at h
        injection h with h
        refine ⟨1, v, by omega, h1, ?_, h.symm⟩
        intro j hj
        have : j = 0 := by omega
        rw [this]; exact h0
      | none =>
        rw [h1] at h
        cases h2 : fixPatSearch 2 r text with
        | some v =>
          rw [h2] at h
          injection h with h
          refine ⟨2, v, by omega, h2, ?_, h.symm⟩
          intro j hj
          interval_cases j
          · exact h0
          · exact h1
        | none =>
          rw [h2] at h
          cases h3 : fixPatSearch 3 r text with
          | some v =>
            rw [h3] at h
            injection h with h
            refine ⟨3, v, by omega, h3, ?_, h.symm⟩
            intro j hj
            interval_cases j
            · exact h0
            · exact h1
            · exact h2
          | none => rw [h3] at h; cases h

/-- Witness for C6: the first-match cascade instantiated on the concrete
repair of part III. -/
theorem claim_C6_witness :
    ∃ k hit, k < 4 ∧
      fixPatSearch k (lit "III") (lit "PART III - FREEDOMS") = some hit ∧
      (∀ j, j < k → fixPatSearch j (lit "III") (lit "PART III - FREEDOMS") = none) ∧
      (⟨lit "III", lit "FREEDOMS", 0, lit "PART III"⟩ : PartEntry) =
        recoverEntry (lit "PART III - FREEDOMS") (lit "III") hit :=
  claim_C6.2 (lit "PART III - FREEDOMS") (lit "III")
    ⟨lit "III", lit "FREEDOMS", 0, lit "PART III"⟩ rfl

/-- C7 counterexample: with found parts numbered I and XI and no pattern
match, `_find_part_vii_specifically` merely appends the recovered part VII
(the insertion scan looks only for VIII, IX or X), so before the final sort
the list is out of canonical order; only the final sort restores it. -/
theorem claim_C7_counterexample :
    viiInsertPos [⟨lit "I", lit "", 0, lit ""⟩, ⟨lit "XI", lit "", 1, lit ""⟩] = 2 ∧
    ([⟨lit "I", lit "", 0, lit ""⟩, ⟨lit "XI", lit "", 1, lit ""⟩] :
      List PartEntry).length = 2 ∧
    viiPresort (lit "") [⟨lit "I", lit "", 0, lit ""⟩, ⟨lit "XI", lit "", 1, lit ""⟩] =
      [⟨lit "I", lit "", 0, lit ""⟩, ⟨lit "XI", lit "", 1, lit ""⟩,
       ⟨lit "VII", defaultViiTitle, -1, lit "PART VII (manually added)"⟩] ∧
    sortedByKey (viiPresort (lit "")
      [⟨lit "I", lit "", 0, lit ""⟩, ⟨lit "XI", lit "", 1, lit ""⟩]) = false ∧
    find_part_vii_specifically (lit "")
        [⟨lit "I", lit "", 0, lit ""⟩, ⟨lit "XI", lit "", 1, lit ""⟩] =
      [⟨lit "I", lit "", 0, lit ""⟩,
       ⟨lit "VII", defaultViiTitle, -1, lit "PART VII (manually added)"⟩,
       ⟨lit "XI", lit "", 1, lit ""⟩] :=
  ⟨rfl, rfl, rfl, rfl, rfl⟩

/-- C7 (amended): every repair operation returns a list sorted by the
canonical key (non-canonical numbers last, key 999), obtained by one final
re-sort; but in `_find_part_vii_specifically` the recovered part VII is
inserted before the first part numbered VIII, IX or X and is merely appended
when none is present, so the pre-sort position need not respect canonical
order. -/
theorem claim_C7_amended : ∀ (text : Str) (found : List PartEntry),
    sortedByKey (fix_missing_parts text found) = true ∧
      sortedByKey (find_part_vii_specifically text found) = true ∧
      find_part_vii_specifically text found = ssortParts (viiPresort text found) :=
  fun _ _ => ⟨ssortParts_sorted _, ssortParts_sorted _, rfl⟩

/-- The final parts list of `extract_constitution_structure` always contains
part VII: either it is already present, or `_find_part_vii_specifically`
inserts an entry numbered VII in both of its branches. -/
theorem vii_mem_final (md : Str) (ps1 : List PartEntry) :
    lit "VII" ∈ (if (ps1.map PartEntry.number).contains (lit "VII") then ps1
      else find_part_vii_specifically md ps1).map PartEntry.number := by
  by_cases h : (ps1.map PartEntry.number).contains (lit "VII") = true
  · rw [if_pos h]
    exact (strContains_iff _ _).mp h
  · rw [if_neg h]
    have hm : viiEntry md ∈ find_part_vii_specifically md ps1 := by
      unfold find_part_vii_specifically viiPresort
      exact (mem_ssortParts _ _).mpr (mem_insertAt_self _ _ _)
    have hmap := List.mem_map_of_mem PartEntry.number hm
    rwa [viiEntry_number] at hmap

/-- C8: for every markdown input the extracted structure contains a part
numbered VII; and when none of the nine recovery patterns matches anywhere
in the text, the placeholder entry with the fixed default heading
"THE STATES IN PART B OF THE FIRST SCHEDULE" and sentinel position -1 is
inserted instead of surfacing an error. -/
theorem claim_C8 :
    (∀ md : Str,
      lit "VII" ∈ (extract_constitution_structure md).parts.map PartEntry.number) ∧
    (∀ (text : Str) (found : List PartEntry), viiSearch text = none →
      (⟨lit "VII", defaultViiTitle, -1, lit "PART VII (manually added)"⟩ : PartEntry) ∈
        find_part_vii_specifically text found) := by
  constructor
  · intro md
    exact vii_mem_final md _
  · intro text found hs
    have he : viiEntry text =
        ⟨lit "VII", defaultViiTitle, -1, lit "PART VII (manually added)"⟩ := by
      unfold viiEntry
      rw [hs]

    rw [← he]
    unfold find_part_vii_specifically viiPresort
    exact (mem_ssortParts _ _).mpr (mem_insertAt_self _ _ _)

/-- Witness for C8: on the empty markdown text no pattern matches, and the
extracted structure consists of exactly the placeholder part VII. -/
theorem claim_C8_witness :
    lit "VII" ∈ (extract_constitution_structure (lit "")).parts.map PartEntry.number ∧
      (⟨lit "VII", defaultViiTitle, -1, lit "PART VII (manually added)"⟩ : PartEntry) ∈
        find_part_vii_specifically (lit "") [] :=
  ⟨claim_C8.1 (lit ""), claim_C8.2 (lit "") [] rfl⟩

/-- C10: `extract_constitution_structure` records at most one part entry per
part number (the line scan keeps the first matching line per number and
ignores later ones, and the repair passes only insert absent numbers), while
article entries are not deduplicated: every matching line contributes its
own entry. -/
theorem claim_C10 : ∀ md : Str,
    ((extract_constitution_structure md).parts.map PartEntry.number).Nodup ∧
      (extract_constitution_structure md).articles =
        (withIdx 0 (splitNl md)).filterMap articleCandidate ∧
      (mainScan (withIdx 0 (splitNl md)) []).1 =
        dedupByNumber ((withIdx 0 (splitNl md)).filterMap partCandidate) [] := by
  intro md
  have h1 : ∀ l : List PartEntry, (l.map PartEntry.number).Nodup →
      ((if l.length < 22 then fix_missing_parts md l else l).map PartEntry.number).Nodup := by
    intro l hl
    by_cases hlen : l.length < 22
    · rw [if_pos hlen]
      unfold fix_missing_parts
      have hfix := fixGo_nodup md expectedParts (l.map PartEntry.number) l hl
        (fun n hn => hn)
      have hperm :=
        (ssortParts_perm (fixGo md expectedParts (l.map PartEntry.number) l)).map
          PartEntry.number
      rw [hperm.nodup_iff]
      exact hfix
    · rw [if_neg hlen]; exact hl
  have h2 : ∀ l : List PartEntry, (l.map PartEntry.number).Nodup →
      ((if (l.map PartEntry.number).contains (lit "VII") then l
        else find_part_vii_specifically md l).map PartEntry.number).Nodup := by
    intro l hl
    by_cases hc : (l.map PartEntry.number).contains (lit "VII") = true
    · rw [if_pos hc]; exact hl
    · rw [if_neg hc]
      unfold find_part_vii_specifically viiPresort
      have hperm :=
        (ssortParts_perm (insertAt (viiInsertPos l) (viiEntry md) l)).map PartEntry.number
      rw [hperm.nodup_iff]
      have hperm2 := (insertAt_perm (viiInsertPos l) (viiEntry md) l).map PartEntry.number
      rw [hperm2.nodup_iff]
      refine List.nodup_cons.mpr ⟨?_, hl⟩
      rw [viiEntry_number]
      intro hmem
      exact hc ((strContains_iff _ _).mpr hmem)
  have hps : ((mainScan (withIdx 0 (splitNl md)) []).1.map PartEntry.number).Nodup := by
    rw [mainScan_parts]
    exact (dedupByNumber_nodup _ _).1
  refine ⟨h2 _ (h1 _ hps), mainScan_articles _ _, mainScan_parts _ _⟩

/-- C5: a section whose content span (stripped) has exactly the embedded
subsection matches "(a) ..." and "(b) ..." gets its own content truncated to
the stripped text preceding the first subsection match, and carries exactly
two subsections with numbers "a" and "b". -/
theorem claim_C5 : ∀ (t : Str) (i : Nat) (m : RMatch (Str × Str)),
    (sectionMatches t).get? i = some m →
    ∀ ma mb : RMatch Str,
      subsectionMatches
        (pstrip (sliceL t m.stop (nextStartOf (sectionMatches t) t.length (i + 1)))) =
        [ma, mb] →
      ma.val = lit "a" → mb.val = lit "b" →
      ∃ sec : PSection, (extract_sections t).get? i = some sec ∧
        sec.content =
          pstrip ((pstrip (sliceL t m.stop
            (nextStartOf (sectionMatches t) t.length (i + 1)))).take ma.start) ∧
        sec.subsections.length = 2 ∧
        sec.subsections.map PSection.number = [lit "a", lit "b"] := by
  intro t i m hget ma mb hsub hva hvb
  set nxt := nextStartOf (sectionMatches t) t.length (i + 1) with hnxt
  have hEx : extract_subsections (pstrip (sliceL t m.stop nxt)) =
      [mkSubsection (pstrip (sliceL t m.stop nxt)) (ma, mb.start),
       mkSubsection (pstrip (sliceL t m.stop nxt))
         (mb, (pstrip (sliceL t m.stop nxt)).length)] := by
    unfold extract_subsections
    rw [hsub]
    rfl
  refine ⟨mkSection t (m, nxt), ?_, ?_, ?_, ?_⟩
  · unfold extract_sections
    rw [List.get?_map, get?_withNext, hget, hnxt]
    rfl
  · show (mkSection t (m, nxt)).content = _
    simp only [mkSection]
    rw [hEx, hsub]
    rfl
  · show (mkSection t (m, nxt)).subsections.length = 2
    simp only [mkSection]
    rw [hEx]
    rfl
  · show (mkSection t (m, nxt)).subsections.map PSection.number = [lit "a", lit "b"]
    simp only [mkSection]
    rw [hEx]
    show [ma.val, mb.val] = _
    rw [hva, hvb]

/-- Witness for C5: the section "Section 1 - Title" whose span holds
"intro", "(a) x" and "(b) y" keeps content "intro" and two subsections
numbered "a" and "b". -/
theorem claim_C5_witness :
    ∃ sec : PSection,
      (extract_sections (lit "Section 1 - Title\nintro\n(a) x\n(b) y")).get? 0 =
        some sec ∧
      sec.content =
        pstrip ((pstrip (sliceL (lit "Section 1 - Title\nintro\n(a) x\n(b) y")
          (RMatch.stop ⟨0, 17, (lit "1", lit "Title")⟩)
          (nextStartOf (sectionMatches (lit "Section 1 - Title\nintro\n(a) x\n(b) y"))
            (lit "Section 1 - Title\nintro\n(a) x\n(b) y").length 1))).take 6) ∧
      sec.subsections.length = 2 ∧
      sec.subsections.map PSection.number = [lit "a", lit "b"] :=
  claim_C5 (lit "Section 1 - Title\nintro\n(a) x\n(b) y") 0
    ⟨0, 17, (lit "1", lit "Title")⟩ rfl ⟨6, 5, lit "a"⟩ ⟨12, 5, lit "b"⟩ rfl rfl rfl

/-- Modelled from the claim (C2): a variant of the subsection loop body
whose span starts at the match END, `[end of match i, next start)`, as the
claim asserts for every level — to be compared with the source's
`mkSubsection`, which starts the span at the match START. -/
def mkSubsectionClaimC2 (text : Str) (p : RMatch Str × Nat) : PSection :=
  let content := pstrip (cleanSub (sliceL text p.1.stop p.2))
  PSection.mk (lit "subsec_" ++ p.1.val) p.1.val none content []

/-- Modelled from the claim (C2): subsection extraction with spans starting
at the match end. -/
def extract_subsections_claimC2 (text : Str) : List PSection :=
  (withNext text.length (subsectionMatches text)).map (mkSubsectionClaimC2 text)

/-- C2 counterexample: at the subsection level the code's span is
`[match start, next start)` (parser.py line 164), not
`[match end, next start)` as the claim asserts: on "(a) foo\n(b) bar" the
code yields contents ") foo" and ") bar" (the cleanup substitution strips
"(a" and leaves the ")"), whereas end-based spans would yield empty
contents. -/
theorem claim_C2_counterexample :
    (extract_subsections (lit "(a) foo\n(b) bar")).map PSection.content =
      [lit ") foo", lit ") bar"] ∧
    (extract_subsections_claimC2 (lit "(a) foo\n(b) bar")).map PSection.content =
      [[], []] ∧
    ([lit ") foo", lit ") bar"] : List Str) ≠ [[], []] :=
  ⟨rfl, rfl, by decide⟩

/-- C2 (amended): at the chapter, article and section levels the unit built
from match `i` owns the span `[end of match i, start of match i+1)` (or end
of text), the next-finer level being extracted from exactly that span for
chapters and articles and from its stripped form for sections; at the
subsection level the span instead starts at the match START,
`[start of match i, next start)`, and the cleanup substitution then
partially removes the marker. -/
theorem claim_C2_amended : ∀ (t : Str) (i : Nat),
    (∀ m : RMatch (Str × Str), (chapterMatches t).get? i = some m →
      ∃ ch : PChapter, (extract_chapters t).get? i = some ch ∧
        ch.articles = extract_articles
          (sliceL t m.stop (nextStartOf (chapterMatches t) t.length (i + 1)))) ∧
    (∀ m : RMatch (Str × Str), (articleMatches t).get? i = some m →
      ∃ ar : PArticle, (extract_articles t).get? i = some ar ∧
        ar.sections = extract_sections
          (sliceL t m.stop (nextStartOf (articleMatches t) t.length (i + 1)))) ∧
    (∀ m : RMatch (Str × Str), (sectionMatches t).get? i = some m →
      ∃ sec : PSection, (extract_sections t).get? i = some sec ∧
        sec.subsections = extract_subsections
          (pstrip (sliceL t m.stop (nextStartOf (sectionMatches t) t.length (i + 1))))) ∧
    (∀ m : RMatch Str, (subsectionMatches t).get? i = some m →
      ∃ sub : PSection, (extract_subsections t).get? i = some sub ∧
        sub.content = pstrip (cleanSub
          (sliceL t m.start (nextStartOf (subsectionMatches t) t.length (i + 1))))) := by
  intro t i
  refine ⟨?_, ?_, ?_, ?_⟩
  · intro m hget
    refine ⟨mkChapter t (m, nextStartOf (chapterMatches t) t.length (i + 1)), ?_, rfl⟩
    unfold extract_chapters
    rw [List.get?_map, get?_withNext, hget]
    rfl
  · intro m hget
    refine ⟨mkArticle t (m, nextStartOf (articleMatches t) t.length (i + 1)), ?_, rfl⟩
    unfold extract_articles
    rw [List.get?_map, get?_withNext, hget]
    rfl
  · intro m hget
    refine ⟨mkSection t (m, nextStartOf (sectionMatches t) t.length (i + 1)), ?_, rfl⟩
    unfold extract_sections
    rw [List.get?_map, get?_withNext, hget]
    rfl
  · intro m hget
    refine ⟨mkSubsection t (m, nextStartOf (subsectionMatches t) t.length (i + 1)), ?_, rfl⟩
    unfold extract_subsections
    rw [List.get?_map, get?_withNext, hget]
    rfl

/-- Witness for C2 (amended): the four span facts instantiated on concrete
texts with two markers each. -/
theorem claim_C2_witness :
    (∃ ch : PChapter,
      (extract_chapters (lit "CHAPTER 1 - A\nxx\nCHAPTER 2 - B\nyy")).get? 0 =
        some ch ∧
      ch.articles = extract_articles
        (sliceL (lit "CHAPTER 1 - A\nxx\nCHAPTER 2 - B\nyy")
          (RMatch.stop ⟨0, 13, (lit "1", lit "A")⟩)
          (nextStartOf (chapterMatches (lit "CHAPTER 1 - A\nxx\nCHAPTER 2 - B\nyy"))
            (lit "CHAPTER 1 - A\nxx\nCHAPTER 2 - B\nyy").length 1))) ∧
    (∃ sub : PSection,
      (extract_subsections (lit "(a) foo\n(b) bar")).get? 0 = some sub ∧
      sub.content = pstrip (cleanSub
        (sliceL (lit "(a) foo\n(b) bar") (RMatch.start ⟨0, 7, lit "a"⟩)
          (nextStartOf (subsectionMatches (lit "(a) foo\n(b) bar"))
            (lit "(a) foo\n(b) bar").length 1)))) :=
  ⟨(claim_C2_amended (lit "CHAPTER 1 - A\nxx\nCHAPTER 2 - B\nyy") 0).1
      ⟨0, 13, (lit "1", lit "A")⟩ rfl,
   (claim_C2_amended (lit "(a) foo\n(b) bar") 0).2.2.2 ⟨0, 7, lit "a"⟩ rfl⟩

theorem withNext_map_fst (L : Nat) :
    ∀ ms : List (RMatch α), (withNext L ms).map (fun p => p.1) = ms
  | [] => rfl
  | [_] => rfl
  | m :: m' :: rest => by
    have ih := withNext_map_fst L (m' :: rest)
    show m :: (withNext L (m' :: rest)).map (fun p => p.1) = m :: m' :: rest
    rw [ih]

theorem map_number_extract_chapters (t : Str) :
    (extract_chapters t).map PChapter.number =
      (chapterMatches t).map (fun m => m.val.1) := by
  unfold extract_chapters
  rw [List.map_map]
  have h1 : (PChapter.number ∘ mkChapter t) =
      (fun p : RMatch (Str × Str) × Nat => p.1.val.1) := rfl
  rw [h1]
  have h2 : (fun p : RMatch (Str × Str) × Nat => p.1.val.1) =
      (fun m : RMatch (Str × Str) => m.val.1) ∘ (fun p => p.1) := rfl
  rw [h2, ← List.map_map, withNext_map_fst]

theorem nextStartOf_le (ms : List (RMatch α)) (L j : Nat)
    (hle : ∀ m ∈ ms, m.start ≤ L) : nextStartOf ms L j ≤ L := by
  unfold nextStartOf
  cases hg : ms.get? j with
  | none => exact le_refl L
  | some m => exact hle m (List.get?_mem hg)

/-- C1 counterexample: on a post-preamble text made of two well-formed
chapter markers with content, the characters of the marker lines (position 0
among them) belong to no chapter's content span, so the content spans do not
cover the post-preamble text. -/
theorem claim_C1_counterexample :
    (parse (lit "CHAPTER 1 - A\nxx\nCHAPTER 2 - B\nyy") none).chapters.length = 2 ∧
    postPreamble (lit "CHAPTER 1 - A\nxx\nCHAPTER 2 - B\nyy") =
      lit "CHAPTER 1 - A\nxx\nCHAPTER 2 - B\nyy" ∧
    chapterContentSpans (lit "CHAPTER 1 - A\nxx\nCHAPTER 2 - B\nyy") =
      [(13, 17), (30, 33)] ∧
    (∀ pq ∈ chapterContentSpans (lit "CHAPTER 1 - A\nxx\nCHAPTER 2 - B\nyy"),
      ¬(pq.1 ≤ 0 ∧ 0 < pq.2)) :=
  ⟨rfl, rfl, rfl, by decide⟩

/-- C1 (amended): when the post-preamble text begins with its first chapter
marker, extraction yields exactly one chapter per match in source order, and
the blocks `[start_i, start_(i+1))` (marker plus content) partition the
whole text: every position lies in exactly one block; each content span
`[end_i, start_(i+1))` sits inside its block with the same right end, and
distinct content spans are disjoint. -/
theorem claim_C1_amended :
    ∀ (t : Str) (t0 : RMatch (Str × Str)) (ts : List (RMatch (Str × Str))),
    chapterMatches t = t0 :: ts → t0.start = 0 →
    ((extract_chapters t).length = (chapterMatches t).length ∧
      (extract_chapters t).map PChapter.number =
        (chapterMatches t).map (fun m => m.val.1)) ∧
    (∀ pos, pos < t.length →
      ∃! i, ∃ b e, (chapterBlocks t).get? i = some (b, e) ∧ b ≤ pos ∧ pos < e) ∧
    (∀ i p q, (chapterContentSpans t).get? i = some (p, q) →
      ∃ b, (chapterBlocks t).get? i = some (b, q) ∧ b ≤ p ∧ q ≤ t.length) ∧
    (∀ i j p q p2 q2 pos,
      (chapterContentSpans t).get? i = some (p, q) →
      (chapterContentSpans t).get? j = some (p2, q2) →
      p ≤ pos → pos < q → p2 ≤ pos → pos < q2 → i = j) := by
  intro t t0 ts hms h0
  have hmono : MonoMatches (chapterMatches t) := finditerL_mono matchChapter t
  have hlemem : ∀ m ∈ chapterMatches t, m.start ≤ t.length :=
    fun m hm => (mem_finditerL _ t m hm).1
  have hchain : blocksChained t0.start (blocksOf t.length (chapterMatches t)) t.length := by
    rw [hms]
    exact blocksOf_chained t.length ts t0 (by rw [← hms]; exact hmono)
      (by rw [← hms]; exact hlemem)
  have hpart : ∀ pos, pos < t.length →
      ∃! i, ∃ b e, (chapterBlocks t).get? i = some (b, e) ∧ b ≤ pos ∧ pos < e := by
    intro pos hpos
    exact blocksChained_partition _ _ _ hchain pos (by rw [h0]; exact Nat.zero_le pos) hpos
  have hspan : ∀ i p q, (chapterContentSpans t).get? i = some (p, q) →
      ∃ b, (chapterBlocks t).get? i = some (b, q) ∧ b ≤ p ∧ q ≤ t.length := by
    intro i p q hget
    unfold chapterContentSpans at hget
    rw [List.get?_map] at hget
    cases hw : (withNext t.length (chapterMatches t)).get? i with
    | none => rw [hw] at hget; cases hget
    | some pr =>
      rw [hw] at hget
      injection hget with hget
      obtain ⟨m, nxt⟩ := pr
      cases hget
      refine ⟨m.start, ?_, Nat.le_add_right _ _, ?_⟩
      · unfold chapterBlocks blocksOf
        rw [List.get?_map, hw]
        rfl
      · have hwn := get?_withNext t.length (chapterMatches t) i
        rw [hw] at hwn
        cases hg : (chapterMatches t).get? i with
        | none => rw [hg] at hwn; cases hwn
        | some m2 =>
          rw [hg] at hwn
          injection hwn with hwn
          have hnn : nxt = nextStartOf (chapterMatches t) t.length (i + 1) :=
            congrArg Prod.snd hwn
          rw [hnn]
          exact nextStartOf_le _ _ _ hlemem
  refine ⟨⟨length_extract_chapters t, map_number_extract_chapters t⟩, hpart, hspan, ?_⟩
  intro i j p q p2 q2 pos hgi hgj hp1 hp2 hq1 hq2
  obtain ⟨b, hbi, hbp, hql⟩ := hspan i p q hgi
  obtain ⟨b2, hbj, hbp2, hql2⟩ := hspan j p2 q2 hgj
  have hpos : pos < t.length := lt_of_lt_of_le hp2 hql
  obtain ⟨iu, hiu, huniq⟩ := hpart pos hpos
  have hi := huniq i ⟨b, q, hbi, le_trans hbp hp1, hp2⟩
  have hj := huniq j ⟨b2, q2, hbj, le_trans hbp2 hq1, hq2⟩
  rw [hi, hj]

/-- Witness for C1 (amended): the block partition instantiated at position 0
of a two-chapter text. -/
theorem claim_C1_witness :
    ∃! i, ∃ b e,
      (chapterBlocks (lit "CHAPTER 1 - A\nxx\nCHAPTER 2 - B\nyy")).get? i =
        some (b, e) ∧ b ≤ 0 ∧ 0 < e :=
  (claim_C1_amended (lit "CHAPTER 1 - A\nxx\nCHAPTER 2 - B\nyy")
    ⟨0, 13, (lit "1", lit "A")⟩ [⟨17, 13, (lit "2", lit "B")⟩] rfl rfl).2.1 0 (by decide)

/-- C4: with no chapter marker and exactly two article matches, `parse`
returns an empty chapter list and exactly two top-level articles; and in
general the top level tries chapters first, falls through to articles when
no chapter matches, and to sections when no article matches either. -/
theorem claim_C4 : ∀ (text : Str) (md : Option DocMetadata),
    (chapterMatches text = [] → (articleMatches text).length = 2 →
      (parse text md).chapters = [] ∧ (parse text md).articles.length = 2) ∧
    ((parse text md).chapters = extract_chapters (postPreamble text)) ∧
    (extract_chapters (postPreamble text) = [] →
      (parse text md).articles = extract_articles (postPreamble text)) ∧
    (extract_chapters (postPreamble text) = [] →
      extract_articles (postPreamble text) = [] →
      (parse text md).sections = extract_sections (postPreamble text)) := by
  intro text md
  refine ⟨?_, parse_chapters_eq text md, parse_articles_eq text md,
    parse_sections_eq text md⟩
  intro hch harts
  cases hf : find_first_structure text with
  | none =>
    exfalso
    have hempty := (ffs_none text hf).2.1
    rw [hempty] at harts
    simp at harts
  | some k =>
    obtain ⟨⟨hanch, hklen⟩, hchlb, harlb, hselb⟩ := ffs_some text k hf
    have hnoc : ∀ q, q < k →
        ¬(anchoredAt text q = true ∧ (matchChapter (text.drop q)).isSome = true) := by
      intro q hq hcon
      exact finditerAux_ne_nil matchChapter text (text.length + 2) 0 q (Nat.zero_le q)
        (by omega) (by omega) hcon.1 hcon.2 hch
    have hnoa : ∀ q, q < k →
        ¬(anchoredAt text q = true ∧ (matchArticle (text.drop q)).isSome = true) := by
      intro q hq
      cases ham : articleMatches text with
      | nil => rw [ham] at harts; simp at harts
      | cons t0 ts2 =>
        have hk0 : k ≤ t0.start := harlb t0 (by rw [ham]; exact List.mem_cons_self _ _)
        exact finditerAux_head_least matchArticle text (text.length + 2) 0 t0 ts2 ham q
          (Nat.zero_le q) (by omega)
    by_cases h0 : 0 < k
    · have hpp := postPreamble_pos text k hf h0
      have hchdrop : chapterMatches (text.drop k) = [] := by
        show finditerL matchChapter (text.drop k) = []
        rw [finditerL_drop matchChapter text k hklen hanch hnoc]
        rw [show finditerL matchChapter text = chapterMatches text from rfl, hch]
        rfl
      have hardrop : (articleMatches (text.drop k)).length = (articleMatches text).length := by
        show (finditerL matchArticle (text.drop k)).length = _
        rw [finditerL_drop matchArticle text k hklen hanch hnoa]
        rw [List.length_map]
        rfl
      have hch2 : extract_chapters (postPreamble text) = [] := by
        rw [hpp]; exact extract_chapters_nil _ hchdrop
      refine ⟨?_, ?_⟩
      · rw [parse_chapters_eq]; exact hch2
      · rw [parse_articles_eq text md hch2, hpp, length_extract_articles, hardrop, harts]
    · have hpp := postPreamble_zero text k hf h0
      have hch2 : extract_chapters (postPreamble text) = [] := by
        rw [hpp]; exact extract_chapters_nil _ hch
      refine ⟨?_, ?_⟩
      · rw [parse_chapters_eq]; exact hch2
      · rw [parse_articles_eq text md hch2, hpp, length_extract_articles, harts]

/-- Witness for C4: a text with no chapter markers and exactly two article
markers parses to no chapters and two top-level articles. -/
theorem claim_C4_witness :
    (parse (lit "x\nArticle 1 - A\naaa\nArticle 2 - B\nbbb") none).chapters = [] ∧
      (parse (lit "x\nArticle 1 - A\naaa\nArticle 2 - B\nbbb") none).articles.length = 2 :=
  (claim_C4 (lit "x\nArticle 1 - A\naaa\nArticle 2 - B\nbbb") none).1 rfl rfl

end Legal2Akn
